import Mathlib

set_option maxHeartbeats 1000000

namespace SandboxOrch

/-!
Verification development for the sandbox-orchestrator repository
(src/app/main.py, src/app/runner.py).  Python functions are shallowly
embedded as executable Lean definitions; machine-level concerns (JSON
serialisation, the HTTP framework, the DB driver) are modelled at the
granularity the specification talks about.
-/

/-! ### Allowlist domain extraction (src/app/main.py, `_extract_domains`)

The source compiles the raw string pattern r"https?://([^/\\s]+)".  Because
the doubled backslash inside a raw string denotes an escaped backslash, the
regex engine receives the character class [^/\\s]: every character other
than '/', '\' and the literal letter 's'.  `hostCharCode` is that class. -/

def hostCharCode (c : Char) : Bool :=
  !(c = '/' || c = '\\' || c = 's')

/-- Host-character class of the pattern as the specification writes it,
https?://([^/\s]+): every character other than '/' and whitespace.  Python's
\s on ASCII text matches space, tab, newline, carriage return, vertical tab
and form feed. -/
def hostCharSpecRegex (c : Char) : Bool :=
  !(c = '/' || c = ' ' || c = '\t' || c = '\n' || c = '\r' || c = '\x0b' || c = '\x0c')

/-- Greedy capture of `([^...]+)` at the current position: the longest run of
characters satisfying the class, together with the remainder of the input. -/
def spanHost (p : Char → Bool) : List Char → List Char × List Char
  | [] => ([], [])
  | c :: cs =>
    if p c then
      let rest := spanHost p cs
      (c :: rest.1, rest.2)
    else ([], c :: cs)

/-- Scanning loop of `re.findall(r"https?://(CLASS+)", command)`: try the
pattern at each position from the left; on a successful (necessarily
non-empty) match record the captured group and resume after the match, on a
failed match advance one character.  The alternation `https?` is greedy, so
"https://" is tried before "http://", exactly as in the regex engine.  The
fuel argument only drives structural recursion; `findHosts` supplies one
unit of fuel per input character, which is enough because every step
consumes at least one character. -/
def findHostsAux (p : Char → Bool) : Nat → List Char → List (List Char)
  | 0, _ => []
  | _ + 1, [] => []
  | fuel + 1, 'h' :: 't' :: 't' :: 'p' :: 's' :: ':' :: '/' :: '/' :: rest =>
    match spanHost p rest with
    | ([], _) => findHostsAux p fuel ('t' :: 't' :: 'p' :: 's' :: ':' :: '/' :: '/' :: rest)
    | (c :: host, after) => (c :: host) :: findHostsAux p fuel after
  | fuel + 1, 'h' :: 't' :: 't' :: 'p' :: ':' :: '/' :: '/' :: rest =>
    match spanHost p rest with
    | ([], _) => findHostsAux p fuel ('t' :: 't' :: 'p' :: ':' :: '/' :: '/' :: rest)
    | (c :: host, after) => (c :: host) :: findHostsAux p fuel after
  | fuel + 1, _ :: rest => findHostsAux p fuel rest

def findHosts (p : Char → Bool) (cs : List Char) : List (List Char) :=
  findHostsAux p cs.length cs

/-- ASCII lowercasing of a string, character by character.  The source uses
Python's str.lower, which agrees with this on ASCII text (hostnames and the
allowlist entries exercised by the spec are ASCII). -/
def lowerAscii (s : String) : String :=
  String.mk (s.data.map Char.toLower)

/-- Embeds `_extract_domains` (src/app/main.py): every capture of the
compiled pattern, lowercased, in match order. -/
def extract_domains (command : String) : List String :=
  (findHosts hostCharCode command.data).map fun h => lowerAscii (String.mk h)

/-- Domain extraction as the specification states it, using the whitespace
class [^/\s] instead of the class the source actually compiles. -/
def extract_domains_specRegex (command : String) : List String :=
  (findHosts hostCharSpecRegex command.data).map fun h => lowerAscii (String.mk h)

/-- Embeds `_check_policy_allowlist` (src/app/main.py).  Returns true when
the request is denied (the source returns a 403 policy_denied response).
Python's `if not allowlist` treats both None and the empty list as absent. -/
def check_policy_allowlist (command : String) (allowlist : Option (List String)) : Bool :=
  match allowlist with
  | none => false
  | some l =>
    if l.isEmpty then false
    else
      let allowset := l.map lowerAscii
      let domains := extract_domains command
      !domains.isEmpty && domains.any fun d => !allowset.contains d

/-- The allowlist check as specified: same logic, but extracting hosts with
the specification's regex. -/
def check_policy_allowlist_specRegex (command : String) (allowlist : Option (List String)) : Bool :=
  match allowlist with
  | none => false
  | some l =>
    if l.isEmpty then false
    else
      let allowset := l.map lowerAscii
      let domains := extract_domains_specRegex command
      !domains.isEmpty && domains.any fun d => !allowset.contains d

/-- C1: the code contradicts the claim (and the spec's own scenario).  For
the command "curl http://evil.test/x" with allowlist ["evil.test"], the
claim requires acceptance (201): the only host extracted by the regex
https?://([^/\s]+) is "evil.test", which is allowlisted.  The code instead
compiles the class [^/\\s] (raw-string double escape), extracts the
truncated host "evil.te" — the letter 's' terminates the capture — and
denies the request with 403 policy_denied. -/
theorem c1_allowlist_code_bug :
    check_policy_allowlist "curl http://evil.test/x" (some ["evil.test"]) = true ∧
    extract_domains "curl http://evil.test/x" = ["evil.te"] ∧
    extract_domains_specRegex "curl http://evil.test/x" = ["evil.test"] ∧
    check_policy_allowlist_specRegex "curl http://evil.test/x" (some ["evil.test"]) = false := by
  refine ⟨by decide, by decide, by decide, by decide⟩

/-! ### UTF-8 bytes (used by `_encode_cursor` / `_decode_cursor`)

The source encodes the cursor payload with str.encode("utf-8") and decodes
it with bytes.decode("utf-8").  Bytes are modelled as Nat values below 256.
The decoder below accepts exactly the shapes the encoder produces; it does
not reproduce CPython's rejection of overlong forms and surrogates, which
only differ on byte strings no encoder output ever takes. -/

def utf8EncodeChar (c : Char) : List Nat :=
  if c.toNat < 128 then [c.toNat]
  else if c.toNat < 2048 then [192 + c.toNat / 64, 128 + c.toNat % 64]
  else if c.toNat < 65536 then
    [224 + c.toNat / 4096, 128 + c.toNat / 64 % 64, 128 + c.toNat % 64]
  else
    [240 + c.toNat / 262144, 128 + c.toNat / 4096 % 64, 128 + c.toNat / 64 % 64, 128 + c.toNat % 64]

def utf8Encode : List Char → List Nat
  | [] => []
  | c :: cs => utf8EncodeChar c ++ utf8Encode cs

def isContByte (b : Nat) : Bool := 128 ≤ b && b < 192

def utf8Cont1 (b0 : Nat) : List Nat → Option (Char × List Nat)
  | b1 :: rest =>
    if isContByte b1 then some (Char.ofNat ((b0 - 192) * 64 + (b1 - 128)), rest) else none
  | [] => none

def utf8Cont2 (b0 : Nat) : List Nat → Option (Char × List Nat)
  | b1 :: b2 :: rest =>
    if isContByte b1 && isContByte b2 then
      some (Char.ofNat ((b0 - 224) * 4096 + (b1 - 128) * 64 + (b2 - 128)), rest)
    else none
  | _ => none

def utf8Cont3 (b0 : Nat) : List Nat → Option (Char × List Nat)
  | b1 :: b2 :: b3 :: rest =>
    if isContByte b1 && isContByte b2 && isContByte b3 then
      some (Char.ofNat ((b0 - 240) * 262144 + (b1 - 128) * 4096 + (b2 - 128) * 64 + (b3 - 128)),
        rest)
    else none
  | _ => none

/-- Decode a single UTF-8 scalar from the front of a byte string, returning
the character and the remaining bytes. -/
def utf8DecodeOne : List Nat → Option (Char × List Nat)
  | [] => none
  | b0 :: rest =>
    if b0 < 128 then some (Char.ofNat b0, rest)
    else if b0 < 192 then none
    else if b0 < 224 then utf8Cont1 b0 rest
    else if b0 < 240 then utf8Cont2 b0 rest
    else if b0 < 248 then utf8Cont3 b0 rest
    else none

/-- Iterated decoding.  The fuel argument only drives structural recursion:
each step consumes at least one byte, so one unit per input byte suffices. -/
def utf8DecodeLoop : Nat → List Nat → Option (List Char)
  | 0, bs => if bs.isEmpty then some [] else none
  | fuel + 1, bs =>
    if bs.isEmpty then some []
    else
      match utf8DecodeOne bs with
      | none => none
      | some (c, rest) => (utf8DecodeLoop fuel rest).map fun cs => c :: cs

def utf8Decode (bs : List Nat) : Option (List Char) :=
  utf8DecodeLoop bs.length bs

theorem char_toNat_lt (c : Char) : c.toNat < 1114112 := by
  rcases c.valid with h | h
  · exact Nat.lt_trans h (by norm_num)
  · exact h.2

theorem utf8EncodeChar_lt_256 (c : Char) : ∀ b ∈ utf8EncodeChar c, b < 256 := by
  have hval := char_toNat_lt c
  intro b hb
  unfold utf8EncodeChar at hb
  split at hb
  · simp only [List.mem_cons, List.not_mem_nil, or_false] at hb
    omega
  · split at hb
    · simp only [List.mem_cons, List.not_mem_nil, or_false] at hb
      rcases hb with h | h <;> omega
    · split at hb
      · simp only [List.mem_cons, List.not_mem_nil, or_false] at hb
        rcases hb with h | h | h <;> omega
      · simp only [List.mem_cons, List.not_mem_nil, or_false] at hb
        rcases hb with h | h | h | h <;> omega

theorem utf8Encode_lt_256 (cs : List Char) : ∀ b ∈ utf8Encode cs, b < 256 := by
  induction cs with
  | nil => intro b hb; simp [utf8Encode] at hb
  | cons c cs ih =>
    intro b hb
    simp only [utf8Encode, List.mem_append] at hb
    rcases hb with h | h
    · exact utf8EncodeChar_lt_256 c b h
    · exact ih b h

theorem utf8EncodeChar_ne_nil (c : Char) : utf8EncodeChar c ≠ [] := by
  unfold utf8EncodeChar
  split
  · simp
  · split
    · simp
    · split <;> simp

theorem utf8DecodeOne_encodeChar (c : Char) (bs : List Nat) :
    utf8DecodeOne (utf8EncodeChar c ++ bs) = some (c, bs) := by
  have hval := char_toNat_lt c
  unfold utf8EncodeChar
  by_cases h1 : c.toNat < 128
  · rw [if_pos h1]
    show utf8DecodeOne (c.toNat :: bs) = _
    rw [utf8DecodeOne, if_pos h1, Char.ofNat_toNat]
  · rw [if_neg h1]
    by_cases h2 : c.toNat < 2048
    · rw [if_pos h2]
      show utf8DecodeOne ((192 + c.toNat / 64) :: (128 + c.toNat % 64) :: bs) = _
      rw [utf8DecodeOne, if_neg (by omega), if_neg (by omega), if_pos (by omega), utf8Cont1]
      have hc : isContByte (128 + c.toNat % 64) = true := by
        simp only [isContByte, Bool.and_eq_true, decide_eq_true_eq]
        omega
      rw [if_pos hc]
      have harith : (192 + c.toNat / 64 - 192) * 64 + (128 + c.toNat % 64 - 128) = c.toNat := by
        omega
      rw [harith, Char.ofNat_toNat]
    · rw [if_neg h2]
      by_cases h3 : c.toNat < 65536
      · rw [if_pos h3]
        show utf8DecodeOne ((224 + c.toNat / 4096) :: (128 + c.toNat / 64 % 64) ::
          (128 + c.toNat % 64) :: bs) = _
        rw [utf8DecodeOne, if_neg (by omega), if_neg (by omega), if_neg (by omega),
          if_pos (by omega), utf8Cont2]
        have hc : (isContByte (128 + c.toNat / 64 % 64) &&
            isContByte (128 + c.toNat % 64)) = true := by
          simp only [isContByte, Bool.and_eq_true, decide_eq_true_eq]
          omega
        rw [if_pos hc]
        have harith : (224 + c.toNat / 4096 - 224) * 4096 +
            (128 + c.toNat / 64 % 64 - 128) * 64 + (128 + c.toNat % 64 - 128) = c.toNat := by
          omega
        rw [harith, Char.ofNat_toNat]
      · rw [if_neg h3]
        show utf8DecodeOne ((240 + c.toNat / 262144) :: (128 + c.toNat / 4096 % 64) ::
          (128 + c.toNat / 64 % 64) :: (128 + c.toNat % 64) :: bs) = _
        rw [utf8DecodeOne, if_neg (by omega), if_neg (by omega), if_neg (by omega),
          if_neg (by omega), if_pos (by omega), utf8Cont3]
        have hc : (isContByte (128 + c.toNat / 4096 % 64) &&
            isContByte (128 + c.toNat / 64 % 64) && isContByte (128 + c.toNat % 64)) = true := by
          simp only [isContByte, Bool.and_eq_true, decide_eq_true_eq]
          omega
        rw [if_pos hc]
        have harith : (240 + c.toNat / 262144 - 240) * 262144 +
            (128 + c.toNat / 4096 % 64 - 128) * 4096 +
            (128 + c.toNat / 64 % 64 - 128) * 64 + (128 + c.toNat % 64 - 128) = c.toNat := by
          omega
        rw [harith, Char.ofNat_toNat]

theorem utf8DecodeLoop_encode (cs : List Char) :
    ∀ fuel : Nat, (utf8Encode cs).length ≤ fuel →
      utf8DecodeLoop fuel (utf8Encode cs) = some cs := by
  induction cs with
  | nil =>
    intro fuel _
    cases fuel with
    | zero => rfl
    | succ n => rfl
  | cons c cs ih =>
    intro fuel hfuel
    have hne : (utf8EncodeChar c ++ utf8Encode cs) ≠ [] := by
      intro h
      exact utf8EncodeChar_ne_nil c (List.append_eq_nil.mp h).1
    have hlen : 1 ≤ (utf8EncodeChar c).length :=
      List.length_pos.mpr (utf8EncodeChar_ne_nil c)
    rw [utf8Encode] at hfuel ⊢
    rw [List.length_append] at hfuel
    cases fuel with
    | zero => omega
    | succ n =>
      rw [utf8DecodeLoop, if_neg (by simpa [List.isEmpty_iff] using hne),
        utf8DecodeOne_encodeChar]
      dsimp only
      rw [ih n (by omega), Option.map_some']

theorem utf8Decode_utf8Encode (cs : List Char) : utf8Decode (utf8Encode cs) = some cs :=
  utf8DecodeLoop_encode cs (utf8Encode cs).length (Nat.le_refl _)

/-! ### base64url (src/app/main.py, `_encode_cursor` / `_decode_cursor`)

base64.urlsafe_b64encode / urlsafe_b64decode over byte strings modelled as
lists of Nat below 256.  The decoder accepts every string the encoder can
produce (padded or unpadded after the caller restores padding); like the
encoder's inverse, it recognises the pad character only in the final
four-character quantum and rejects other malformed input, where CPython's
laxer binascii layer may instead ignore stray characters.  The claims under
study only decode well-formed cursors, where the two agree. -/

def b64Char (v : Nat) : Char :=
  if v < 26 then Char.ofNat (65 + v)
  else if v < 52 then Char.ofNat (97 + (v - 26))
  else if v < 62 then Char.ofNat (48 + (v - 52))
  else if v = 62 then '-'
  else '_'

def b64Value (c : Char) : Option Nat :=
  if 65 ≤ c.toNat && c.toNat ≤ 90 then some (c.toNat - 65)
  else if 97 ≤ c.toNat && c.toNat ≤ 122 then some (c.toNat - 97 + 26)
  else if 48 ≤ c.toNat && c.toNat ≤ 57 then some (c.toNat - 48 + 52)
  else if c == '-' then some 62
  else if c == '_' then some 63
  else none

def b64EncodeRaw : List Nat → List Char
  | [] => []
  | [a] => [b64Char (a / 4), b64Char (a % 4 * 16), '=', '=']
  | [a, b] => [b64Char (a / 4), b64Char (a % 4 * 16 + b / 16), b64Char (b % 16 * 4), '=']
  | a :: b :: c :: rest =>
    b64Char (a / 4) :: b64Char (a % 4 * 16 + b / 16) :: b64Char (b % 16 * 4 + c / 64) ::
      b64Char (c % 64) :: b64EncodeRaw rest

def b64DecodeTail2 (c1 c2 : Char) : Option (List Nat) :=
  match b64Value c1, b64Value c2 with
  | some v1, some v2 => some [v1 * 4 + v2 / 16]
  | _, _ => none

def b64DecodeTail3 (c1 c2 c3 : Char) : Option (List Nat) :=
  match b64Value c1, b64Value c2, b64Value c3 with
  | some v1, some v2, some v3 => some [v1 * 4 + v2 / 16, v2 % 16 * 16 + v3 / 4]
  | _, _, _ => none

def b64DecodeFull (c1 c2 c3 c4 : Char) (rest : Option (List Nat)) : Option (List Nat) :=
  match b64Value c1, b64Value c2, b64Value c3, b64Value c4, rest with
  | some v1, some v2, some v3, some v4, some bs =>
    some ((v1 * 4 + v2 / 16) :: (v2 % 16 * 16 + v3 / 4) :: (v3 % 4 * 64 + v4) :: bs)
  | _, _, _, _, _ => none

def b64DecodeRaw : List Char → Option (List Nat)
  | [] => some []
  | c1 :: c2 :: c3 :: c4 :: rest =>
    if c3 == '=' then
      if c4 == '=' && rest.isEmpty then b64DecodeTail2 c1 c2 else none
    else if c4 == '=' then
      if rest.isEmpty then b64DecodeTail3 c1 c2 c3 else none
    else b64DecodeFull c1 c2 c3 c4 (b64DecodeRaw rest)
  | _ => none

theorem b64Value_b64Char : ∀ v : Nat, v < 64 → b64Value (b64Char v) = some v := by decide

theorem b64Char_beq_pad : ∀ v : Nat, v < 64 → (b64Char v == '=') = false := by decide

theorem b64DecodeTail2_encode (v1 v2 : Nat) (h1 : v1 < 64) (h2 : v2 < 64) :
    b64DecodeTail2 (b64Char v1) (b64Char v2) = some [v1 * 4 + v2 / 16] := by
  rw [b64DecodeTail2, b64Value_b64Char v1 h1, b64Value_b64Char v2 h2]

theorem b64DecodeTail3_encode (v1 v2 v3 : Nat) (h1 : v1 < 64) (h2 : v2 < 64) (h3 : v3 < 64) :
    b64DecodeTail3 (b64Char v1) (b64Char v2) (b64Char v3) =
      some [v1 * 4 + v2 / 16, v2 % 16 * 16 + v3 / 4] := by
  rw [b64DecodeTail3, b64Value_b64Char v1 h1, b64Value_b64Char v2 h2, b64Value_b64Char v3 h3]

theorem b64DecodeFull_encode (v1 v2 v3 v4 : Nat) (bs : List Nat)
    (h1 : v1 < 64) (h2 : v2 < 64) (h3 : v3 < 64) (h4 : v4 < 64) :
    b64DecodeFull (b64Char v1) (b64Char v2) (b64Char v3) (b64Char v4) (some bs) =
      some ((v1 * 4 + v2 / 16) :: (v2 % 16 * 16 + v3 / 4) :: (v3 % 4 * 64 + v4) :: bs) := by
  delta b64DecodeFull
  rw [b64Value_b64Char v1 h1, b64Value_b64Char v2 h2, b64Value_b64Char v3 h3,
    b64Value_b64Char v4 h4]

theorem b64DecodeRaw_b64EncodeRaw : ∀ bs : List Nat, (∀ b ∈ bs, b < 256) →
    b64DecodeRaw (b64EncodeRaw bs) = some bs
  | [], _ => rfl
  | [a], h => by
    have ha : a < 256 := h a (by simp)
    show b64DecodeRaw [b64Char (a / 4), b64Char (a % 4 * 16), '=', '='] = some [a]
    rw [b64DecodeRaw, if_pos (by decide), if_pos (by decide),
      b64DecodeTail2_encode _ _ (by omega) (by omega)]
    have : a / 4 * 4 + a % 4 * 16 / 16 = a := by omega
    rw [this]
  | [a, b], h => by
    have ha : a < 256 := h a (by simp)
    have hb : b < 256 := h b (by simp)
    show b64DecodeRaw [b64Char (a / 4), b64Char (a % 4 * 16 + b / 16),
      b64Char (b % 16 * 4), '='] = some [a, b]
    rw [b64DecodeRaw,
      if_neg (by rw [b64Char_beq_pad _ (by omega)]; exact Bool.false_ne_true),
      if_pos (by decide), if_pos (by decide),
      b64DecodeTail3_encode _ _ _ (by omega) (by omega) (by omega)]
    have e1 : a / 4 * 4 + (a % 4 * 16 + b / 16) / 16 = a := by omega
    have e2 : (a % 4 * 16 + b / 16) % 16 * 16 + b % 16 * 4 / 4 = b := by omega
    rw [e1, e2]
  | a :: b :: c :: rest, h => by
    have ha : a < 256 := h a (by simp)
    have hb : b < 256 := h b (by simp)
    have hc : c < 256 := h c (by simp)
    have ih := b64DecodeRaw_b64EncodeRaw rest fun x hx => h x (by simp [hx])
    show b64DecodeRaw (b64Char (a / 4) :: b64Char (a % 4 * 16 + b / 16) ::
      b64Char (b % 16 * 4 + c / 64) :: b64Char (c % 64) :: b64EncodeRaw rest) = some (a :: b :: c :: rest)
    rw [b64DecodeRaw,
      if_neg (by rw [b64Char_beq_pad _ (by omega)]; exact Bool.false_ne_true),
      if_neg (by rw [b64Char_beq_pad _ (by omega)]; exact Bool.false_ne_true),
      ih, b64DecodeFull_encode _ _ _ _ _ (by omega) (by omega) (by omega) (by omega)]
    have e1 : a / 4 * 4 + (a % 4 * 16 + b / 16) / 16 = a := by omega
    have e2 : (a % 4 * 16 + b / 16) % 16 * 16 + (b % 16 * 4 + c / 64) / 4 = b := by omega
    have e3 : (b % 16 * 4 + c / 64) % 4 * 64 + c % 64 = c := by omega
    rw [e1, e2, e3]

/-! ### Cursor encoding (src/app/main.py, `_encode_cursor` / `_decode_cursor`) -/

/-- Python's str.rstrip("="): remove every trailing pad character. -/
def stripTrailingPad (cs : List Char) : List Char :=
  (cs.reverse.dropWhile fun c => c == '=').reverse

/-- Length of the padding the decoder restores: "=" * (-len(cursor) % 4). -/
def padLength (n : Nat) : Nat := (4 - n % 4) % 4

/-- Embeds `_encode_cursor`: base64url of the UTF-8 bytes of
"created_at|job_id", with '=' padding stripped. -/
def encode_cursor (created_at job_id : String) : String :=
  String.mk (stripTrailingPad (b64EncodeRaw (utf8Encode (created_at.data ++ '|' :: job_id.data))))

/-- Python's decoded.split("|", 1) followed by unpacking into exactly two
names: the first '|' splits the string; with no '|' the unpacking raises,
which `_decode_cursor` turns into None. -/
def splitOnceAtBar : List Char → Option (List Char × List Char)
  | [] => none
  | c :: cs =>
    if c == '|' then some ([], cs)
    else
      match splitOnceAtBar cs with
      | none => none
      | some p => some (c :: p.1, p.2)

/-- Embeds `_decode_cursor`: restore padding, base64url-decode, UTF-8-decode,
split at the first '|'; any failure yields None. -/
def decode_cursor (cursor : String) : Option (String × String) :=
  (b64DecodeRaw (cursor.data ++ List.replicate (padLength cursor.data.length) '=')).bind
    fun bytes => (utf8Decode bytes).bind
      fun chars => (splitOnceAtBar chars).map fun p => (String.mk p.1, String.mk p.2)

theorem b64EncodeRaw_shape : ∀ bs : List Nat, (∀ b ∈ bs, b < 256) →
    ∃ body k, b64EncodeRaw bs = body ++ List.replicate k '=' ∧ k ≤ 2 ∧
      (body.length + k) % 4 = 0 ∧ ∀ c ∈ body, (c == '=') = false
  | [], _ => ⟨[], 0, rfl, by omega, rfl, by simp⟩
  | [a], h => by
    have ha : a < 256 := h a (by simp)
    refine ⟨[b64Char (a / 4), b64Char (a % 4 * 16)], 2, rfl, by omega, by simp, ?_⟩
    intro c hc
    have : c = b64Char (a / 4) ∨ c = b64Char (a % 4 * 16) := by simpa using hc
    rcases this with h1 | h1 <;> subst h1 <;> exact b64Char_beq_pad _ (by omega)
  | [a, b], h => by
    have ha : a < 256 := h a (by simp)
    have hb : b < 256 := h b (by simp)
    refine ⟨[b64Char (a / 4), b64Char (a % 4 * 16 + b / 16), b64Char (b % 16 * 4)], 1,
      rfl, by omega, by simp, ?_⟩
    intro c hc
    have : c = b64Char (a / 4) ∨ c = b64Char (a % 4 * 16 + b / 16) ∨
        c = b64Char (b % 16 * 4) := by simpa using hc
    rcases this with h1 | h1 | h1 <;> subst h1 <;> exact b64Char_beq_pad _ (by omega)
  | a :: b :: c :: rest, h => by
    have ha : a < 256 := h a (by simp)
    have hb : b < 256 := h b (by simp)
    have hc : c < 256 := h c (by simp)
    obtain ⟨body, k, he, hk, hlen, hmem⟩ :=
      b64EncodeRaw_shape rest fun x hx => h x (by simp [hx])
    refine ⟨b64Char (a / 4) :: b64Char (a % 4 * 16 + b / 16) ::
      b64Char (b % 16 * 4 + c / 64) :: b64Char (c % 64) :: body, k, ?_, hk, ?_, ?_⟩
    · show b64EncodeRaw (a :: b :: c :: rest) = _
      rw [b64EncodeRaw.eq_4, he]
      simp [List.cons_append]
    · simp only [List.length_cons]
      omega
    · intro x hx
      simp only [List.mem_cons] at hx
      rcases hx with h1 | h1 | h1 | h1 | h1
      · subst h1; exact b64Char_beq_pad _ (by omega)
      · subst h1; exact b64Char_beq_pad _ (by omega)
      · subst h1; exact b64Char_beq_pad _ (by omega)
      · subst h1; exact b64Char_beq_pad _ (by omega)
      · exact hmem x h1

theorem dropWhile_replicate_append (p : Char → Bool) (a : Char) (ha : p a = true) :
    ∀ (k : Nat) (l : List Char), List.dropWhile p (List.replicate k a ++ l) = List.dropWhile p l
  | 0, l => by simp
  | k + 1, l => by
    rw [List.replicate_succ, List.cons_append, List.dropWhile_cons, if_pos ha]
    exact dropWhile_replicate_append p a ha k l

theorem dropWhile_eq_self_of_all (p : Char → Bool) :
    ∀ l : List Char, (∀ c ∈ l, p c = false) → List.dropWhile p l = l
  | [], _ => rfl
  | c :: cs, h => by
    rw [List.dropWhile_cons, if_neg (by simp [h c (by simp)])]

theorem stripTrailingPad_spec (body : List Char) (k : Nat)
    (hmem : ∀ c ∈ body, (c == '=') = false) :
    stripTrailingPad (body ++ List.replicate k '=') = body := by
  unfold stripTrailingPad
  rw [List.reverse_append, List.reverse_replicate,
    dropWhile_replicate_append _ _ (by decide) k body.reverse,
    dropWhile_eq_self_of_all _ _ fun c hcm => hmem c (List.mem_reverse.mp hcm),
    List.reverse_reverse]

theorem splitOnceAtBar_append : ∀ (l : List Char) (r : List Char), '|' ∉ l →
    splitOnceAtBar (l ++ '|' :: r) = some (l, r)
  | [], r, _ => by
    rw [List.nil_append, splitOnceAtBar, if_pos (by decide)]
  | c :: cs, r, h => by
    have hc : ¬(c == '|') = true := by
      simp only [beq_iff_eq]
      intro hh
      exact h (by simp [hh])
    rw [List.cons_append, splitOnceAtBar, if_neg hc,
      splitOnceAtBar_append cs r fun hm => h (List.mem_cons_of_mem c hm)]

/-- Core roundtrip fact shared by the later theorems: decoding an encoded
cursor is the identity on pairs whose created_at contains no '|', in both
the unpadded and the padding-restored form. -/
theorem decode_encode_cursor_both (created_at job_id : String) (hbar : '|' ∉ created_at.data) :
    decode_cursor (encode_cursor created_at job_id) = some (created_at, job_id) ∧
    decode_cursor (String.mk ((encode_cursor created_at job_id).data ++
      List.replicate (padLength (encode_cursor created_at job_id).data.length) '=')) =
      some (created_at, job_id) := by
  have hbytes : ∀ b ∈ utf8Encode (created_at.data ++ '|' :: job_id.data), b < 256 :=
    utf8Encode_lt_256 _
  obtain ⟨body, k, he, hk, hlen, hmem⟩ := b64EncodeRaw_shape _ hbytes
  have hstrip :
      stripTrailingPad (b64EncodeRaw (utf8Encode (created_at.data ++ '|' :: job_id.data))) =
        body := by
    rw [he]
    exact stripTrailingPad_spec body k hmem
  have hdata : (encode_cursor created_at job_id).data = body := by
    unfold encode_cursor
    rw [hstrip]
  have hpad : padLength body.length = k := by
    unfold padLength
    omega
  have hsplit : splitOnceAtBar (created_at.data ++ '|' :: job_id.data) =
      some (created_at.data, job_id.data) := splitOnceAtBar_append _ _ hbar
  have hrest : (utf8Decode (utf8Encode (created_at.data ++ '|' :: job_id.data))).bind
      (fun chars => (splitOnceAtBar chars).map fun p => (String.mk p.1, String.mk p.2)) =
      some (created_at, job_id) := by
    rw [utf8Decode_utf8Encode, Option.some_bind, hsplit, Option.map_some']
  constructor
  · unfold decode_cursor
    rw [hdata, hpad, ← he, b64DecodeRaw_b64EncodeRaw _ hbytes, Option.some_bind, hrest]
  · unfold decode_cursor
    rw [hdata, hpad]
    have hfull : (body ++ List.replicate k '=').length % 4 = 0 := by
      rw [List.length_append, List.length_replicate]
      exact hlen
    have hpad0 : padLength (body ++ List.replicate k '=').length = 0 := by
      unfold padLength
      omega
    show ((b64DecodeRaw ((body ++ List.replicate k '=') ++
      List.replicate (padLength (body ++ List.replicate k '=').length) '=')).bind _) = _
    rw [hpad0, List.replicate_zero, List.append_nil, ← he,
      b64DecodeRaw_b64EncodeRaw _ hbytes, Option.some_bind, hrest]

/-- C6: decoding an encoded cursor is the identity on (created_at, job_id)
pairs whose created_at contains no '|', and the decoder accepts both the
unpadded form the encoder produces and that form with '=' padding restored,
yielding the same pair. -/
theorem c6_cursor_roundtrip (created_at job_id : String) (hbar : '|' ∉ created_at.data) :
    decode_cursor (encode_cursor created_at job_id) = some (created_at, job_id) ∧
    decode_cursor (String.mk ((encode_cursor created_at job_id).data ++
      List.replicate (padLength (encode_cursor created_at job_id).data.length) '=')) =
      some (created_at, job_id) :=
  decode_encode_cursor_both created_at job_id hbar

/-- Witness for C6 at a concrete timestamp and job id. -/
theorem c6_cursor_roundtrip_witness :
    '|' ∉ ("2024-05-01T12:34:56Z" : String).data ∧
    decode_cursor (encode_cursor "2024-05-01T12:34:56Z" "job_0a1b") =
      some ("2024-05-01T12:34:56Z", "job_0a1b") :=
  ⟨by decide, (c6_cursor_roundtrip "2024-05-01T12:34:56Z" "job_0a1b" (by decide)).1⟩

/-! ### The jobs table and GET /api/jobs (src/app/main.py, `list_jobs`)

A Store row, as selected by the handler's query.  The sqlite engine stores
created_at as TEXT and compares it lexicographically; page ordering is
ORDER BY created_at DESC, job_id DESC and the keyset condition is
created_at < ? OR (created_at = ? AND job_id < ?). -/

structure JobRow where
  job_id : String
  status : String
  command : String
  created_at : String
  runner_requested : Option String
  runner_selected : Option String
deriving DecidableEq

instance : Inhabited JobRow := ⟨⟨"", "", "", "", none, none⟩⟩

def rowKey (r : JobRow) : String × String := (r.created_at, r.job_id)

theorem char_eq_of_toNat_eq {a b : Char} (h : a.toNat = b.toNat) : a = b := by
  have ha := Char.ofNat_toNat a
  have hb := Char.ofNat_toNat b
  rw [← ha, ← hb, h]

theorem string_eq_of_data_eq {a b : String} (h : a.data = b.data) : a = b := by
  cases a
  cases b
  exact congrArg String.mk h

/-- Lexicographic comparison of text by code point: the order sqlite's
memcmp-based TEXT comparison induces (UTF-8 byte order coincides with
code-point order). -/
def lexLtB : List Char → List Char → Bool
  | [], [] => false
  | [], _ :: _ => true
  | _ :: _, [] => false
  | a :: as, b :: bs =>
    if a.toNat < b.toNat then true
    else if b.toNat < a.toNat then false
    else lexLtB as bs

def strLtB (a b : String) : Bool := lexLtB a.data b.data

theorem lexLtB_irrefl : ∀ l : List Char, lexLtB l l = false
  | [] => rfl
  | a :: as => by
    rw [lexLtB, if_neg (by omega), if_neg (by omega)]
    exact lexLtB_irrefl as

theorem lexLtB_asymm : ∀ l1 l2 : List Char, lexLtB l1 l2 = true → lexLtB l2 l1 = false
  | [], [], h => by simp [lexLtB] at h
  | [], _ :: _, _ => rfl
  | _ :: _, [], h => by simp [lexLtB] at h
  | a :: as, b :: bs, h => by
    rw [lexLtB] at h ⊢
    by_cases h1 : a.toNat < b.toNat
    · rw [if_neg (by omega), if_pos (by omega)]
    · rw [if_neg h1] at h
      by_cases h2 : b.toNat < a.toNat
      · rw [if_pos h2] at h
        exact absurd h (by simp)
      · rw [if_neg h2] at h
        rw [if_neg (by omega), if_neg (by omega)]
        exact lexLtB_asymm as bs h

theorem lexLtB_trans : ∀ l1 l2 l3 : List Char,
    lexLtB l1 l2 = true → lexLtB l2 l3 = true → lexLtB l1 l3 = true
  | [], [], _, h1, _ => by simp [lexLtB] at h1
  | [], _ :: _, [], _, h2 => by simp [lexLtB] at h2
  | [], _ :: _, _ :: _, _, _ => rfl
  | _ :: _, [], _, h1, _ => by simp [lexLtB] at h1
  | _ :: _, _ :: _, [], _, h2 => by simp [lexLtB] at h2
  | a :: as, b :: bs, c :: cs, h1, h2 => by
    rw [lexLtB] at h1 h2 ⊢
    by_cases hab : a.toNat < b.toNat
    · by_cases hbc : b.toNat < c.toNat
      · rw [if_pos (by omega)]
      · rw [if_neg hbc] at h2
        by_cases hcb : c.toNat < b.toNat
        · rw [if_pos hcb] at h2
          exact absurd h2 (by simp)
        · rw [if_pos (by omega)]
    · rw [if_neg hab] at h1
      by_cases hba : b.toNat < a.toNat
      · rw [if_pos hba] at h1
        exact absurd h1 (by simp)
      · rw [if_neg hba] at h1
        by_cases hbc : b.toNat < c.toNat
        · rw [if_pos (by omega)]
        · rw [if_neg hbc] at h2
          by_cases hcb : c.toNat < b.toNat
          · rw [if_pos hcb] at h2
            exact absurd h2 (by simp)
          · rw [if_neg hcb] at h2
            rw [if_neg (by omega), if_neg (by omega)]
            exact lexLtB_trans as bs cs h1 h2

theorem lexLtB_eq_of_not : ∀ l1 l2 : List Char,
    lexLtB l1 l2 = false → lexLtB l2 l1 = false → l1 = l2
  | [], [], _, _ => rfl
  | [], _ :: _, h1, _ => by simp [lexLtB] at h1
  | _ :: _, [], _, h2 => by simp [lexLtB] at h2
  | a :: as, b :: bs, h1, h2 => by
    rw [lexLtB] at h1 h2
    by_cases hab : a.toNat < b.toNat
    · rw [if_pos hab] at h1
      exact absurd h1 (by simp)
    · rw [if_neg hab] at h1
      by_cases hba : b.toNat < a.toNat
      · rw [if_pos hba] at h2
        exact absurd h2 (by simp)
      · rw [if_neg hba] at h1
        rw [if_neg hba, if_neg hab] at h2
        have hchar : a = b := char_eq_of_toNat_eq (by omega)
        rw [hchar, lexLtB_eq_of_not as bs h1 h2]

theorem strLtB_eq_of_not {a b : String} (h1 : strLtB a b = false)
    (h2 : strLtB b a = false) : a = b :=
  string_eq_of_data_eq (lexLtB_eq_of_not a.data b.data h1 h2)

/-- Strict keyset order: (created_at, job_id) lexicographically under the
TEXT comparison. -/
def keyLt (a b : String × String) : Prop :=
  strLtB a.1 b.1 = true ∨ (a.1 = b.1 ∧ strLtB a.2 b.2 = true)

instance : DecidableRel keyLt := fun a b => by
  unfold keyLt
  exact inferInstance

theorem keyLt_trans {a b c : String × String} (h1 : keyLt a b) (h2 : keyLt b c) : keyLt a c := by
  rcases h1 with h1 | ⟨e1, h1⟩ <;> rcases h2 with h2 | ⟨e2, h2⟩
  · exact Or.inl (lexLtB_trans _ _ _ h1 h2)
  · exact Or.inl (e2 ▸ h1)
  · exact Or.inl (e1 ▸ h2)
  · exact Or.inr ⟨e1.trans e2, lexLtB_trans _ _ _ h1 h2⟩

theorem keyLt_asymm {a b : String × String} (h : keyLt a b) : ¬keyLt b a := by
  intro h'
  rcases h with h | ⟨e, h⟩ <;> rcases h' with h' | ⟨e', h'⟩ <;> unfold strLtB at h h'
  · rw [lexLtB_asymm _ _ h] at h'
    exact Bool.false_ne_true h'
  · rw [e'] at h
    rw [lexLtB_irrefl] at h
    exact Bool.false_ne_true h
  · rw [e] at h'
    rw [lexLtB_irrefl] at h'
    exact Bool.false_ne_true h'
  · rw [lexLtB_asymm _ _ h] at h'
    exact Bool.false_ne_true h'

theorem keyLt_irrefl (a : String × String) : ¬keyLt a a := by
  intro h
  rcases h with h | ⟨_, h⟩ <;>
    simp only [strLtB, lexLtB_irrefl, Bool.false_eq_true] at h

theorem keyLt_trichotomy (a b : String × String) : keyLt a b ∨ a = b ∨ keyLt b a := by
  by_cases hc1 : strLtB a.1 b.1 = true
  · exact Or.inl (Or.inl hc1)
  · by_cases hc2 : strLtB b.1 a.1 = true
    · exact Or.inr (Or.inr (Or.inl hc2))
    · have e1 : a.1 = b.1 :=
        strLtB_eq_of_not (Bool.not_eq_true _ ▸ hc1 : _) (Bool.not_eq_true _ ▸ hc2 : _)
      by_cases hd1 : strLtB a.2 b.2 = true
      · exact Or.inl (Or.inr ⟨e1, hd1⟩)
      · by_cases hd2 : strLtB b.2 a.2 = true
        · exact Or.inr (Or.inr (Or.inr ⟨e1.symm, hd2⟩))
        · have e2 : a.2 = b.2 :=
            strLtB_eq_of_not (Bool.not_eq_true _ ▸ hd1 : _) (Bool.not_eq_true _ ▸ hd2 : _)
          exact Or.inr (Or.inl (Prod.ext e1 e2))

/-- Non-strict descending page order on rows: r1 comes no later than r2. -/
def rowDescGe (r1 r2 : JobRow) : Prop := keyLt (rowKey r2) (rowKey r1) ∨ rowKey r2 = rowKey r1

/-- Strict descending page order on rows. -/
def rowDescGt (r1 r2 : JobRow) : Prop := keyLt (rowKey r2) (rowKey r1)

instance : DecidableRel rowDescGe := fun a b => by
  unfold rowDescGe
  exact inferInstance

instance : IsTotal JobRow rowDescGe :=
  ⟨fun a b => by
    unfold rowDescGe
    rcases keyLt_trichotomy (rowKey b) (rowKey a) with h | h | h
    · exact Or.inl (Or.inl h)
    · exact Or.inl (Or.inr h)
    · exact Or.inr (Or.inl h)⟩

instance : IsTrans JobRow rowDescGe :=
  ⟨fun a b c hab hbc => by
    unfold rowDescGe at *
    rcases hab with hab | hab <;> rcases hbc with hbc | hbc
    · exact Or.inl (keyLt_trans hbc hab)
    · exact Or.inl (hbc ▸ hab)
    · exact Or.inl (hab ▸ hbc)
    · exact Or.inr (hbc.trans hab)⟩

instance : IsAntisymm JobRow rowDescGt :=
  ⟨fun a b h1 h2 => absurd h1 (keyLt_asymm h2)⟩

/-- ORDER BY created_at DESC, job_id DESC. -/
def sortRowsDesc (rows : List JobRow) : List JobRow :=
  List.insertionSort rowDescGe rows

/-- SQLite LIKE matching: '%' matches any sequence, '_' one character,
other characters match ASCII case-insensitively. -/
def likeMatch : List Char → List Char → Bool
  | [], [] => true
  | [], _ :: _ => false
  | '%' :: ps, cs =>
    likeMatch ps cs ||
      (match cs with
       | [] => false
       | _ :: cs2 => likeMatch ('%' :: ps) cs2)
  | '_' :: _, [] => false
  | '_' :: ps, _ :: cs2 => likeMatch ps cs2
  | _ :: _, [] => false
  | p :: ps, c :: cs2 => (p.toLower == c.toLower) && likeMatch ps cs2
termination_by ps cs => (ps.length, cs.length)

def sqlLike (pattern text : String) : Bool := likeMatch pattern.data text.data

/-- The WHERE clauses `list_jobs` builds from its query parameters: Python's
`if status:` / `if q:` add a filter only for a non-empty value; `status = ?`
compares exactly, `command LIKE ?` uses the pattern "%q%". -/
def rowMatches (fstatus fq : Option String) (r : JobRow) : Bool :=
  (match fstatus with
   | none => true
   | some s => if s.isEmpty then true else r.status == s) &&
  (match fq with
   | none => true
   | some q => if q.isEmpty then true else sqlLike ("%" ++ q ++ "%") r.command)

/-- The keyset condition added when a cursor is present. -/
def cursorCond (ck : Option (String × String)) (r : JobRow) : Bool :=
  match ck with
  | none => true
  | some k => decide (keyLt (rowKey r) k)

/-- The SELECT executed by `list_jobs`: filter, order descending by
(created_at, job_id), LIMIT limitPlus. -/
def queryRows (db : List JobRow) (fstatus fq : Option String)
    (ck : Option (String × String)) (limitPlus : Nat) : List JobRow :=
  (sortRowsDesc (db.filter fun r => rowMatches fstatus fq r && cursorCond ck r)).take limitPlus

/-- Embeds `_format_timestamp` restricted to string input as stored by the
sqlite engine.  A string ending in "Z" is returned unchanged; this is the
branch the store always exercises, because `create_job` writes Z-suffixed
strings into the sqlite created_at column.  Ending in "Z" is tested as the last character
being 'Z'.  For other strings the source tries datetime.fromisoformat and
returns the input unchanged when parsing fails; the parse-and-reformat
branch is not modelled (the store only holds Z-suffixed strings), so both
modelled branches return the input. -/
def format_timestamp (s : String) : String :=
  if s.data.getLast? = some 'Z' then s else s

inductive ListJobsResult where
  | badCursor
  | page (items : List JobRow) (next_cursor : Option String)
deriving DecidableEq

/-- The post-processing of the fetched rows in `list_jobs`: with more than
limit rows, the response keeps rows[:limit] and the cursor is built from
rows[limit - 1], the last row of the returned page. -/
def pageOf (limit : Nat) (rows : List JobRow) : ListJobsResult :=
  if limit < rows.length then
    ListJobsResult.page (rows.take limit)
      (some (encode_cursor (format_timestamp (rows.getD (limit - 1) default).created_at)
        (rows.getD (limit - 1) default).job_id))
  else ListJobsResult.page rows none

/-- Embeds `list_jobs` (src/app/main.py): decode the cursor (a malformed one
yields 400 validation_error), fetch limit+1 rows, post-process. -/
def list_jobs (db : List JobRow) (fstatus fq : Option String) (limit : Nat)
    (cursor : Option String) : ListJobsResult :=
  match cursor with
  | none => pageOf limit (queryRows db fstatus fq none (limit + 1))
  | some c =>
    match decode_cursor c with
    | none => ListJobsResult.badCursor
    | some k => pageOf limit (queryRows db fstatus fq (some k) (limit + 1))

/-- Repeatedly call `list_jobs`, following next_cursor with the same
filters, concatenating the returned pages.  Fuel only drives recursion;
`paginate` supplies more pages than the table can yield. -/
def paginateAux (db : List JobRow) (fstatus fq : Option String) (limit : Nat) :
    Nat → Option String → List JobRow
  | 0, _ => []
  | fuel + 1, cursor =>
    match list_jobs db fstatus fq limit cursor with
    | ListJobsResult.badCursor => []
    | ListJobsResult.page items none => items
    | ListJobsResult.page items (some c) =>
      items ++ paginateAux db fstatus fq limit fuel (some c)

def paginate (db : List JobRow) (fstatus fq : Option String) (limit : Nat) : List JobRow :=
  paginateAux db fstatus fq limit (db.length + 1) none

theorem sortRowsDesc_perm (l : List JobRow) : List.Perm (sortRowsDesc l) l :=
  List.perm_insertionSort _ _

theorem sortRowsDesc_sorted (l : List JobRow) : (sortRowsDesc l).Pairwise rowDescGe :=
  List.sorted_insertionSort _ _

theorem rowKey_eq_job_id {a b : JobRow} (h : rowKey a = rowKey b) : a.job_id = b.job_id :=
  congrArg Prod.snd h

/-- With pairwise-distinct job ids (the primary key), the sorted listing is
strictly descending. -/
theorem sortRowsDesc_strict {l : List JobRow}
    (hids : l.Pairwise fun a b => a.job_id ≠ b.job_id) :
    (sortRowsDesc l).Pairwise rowDescGt := by
  have hids' : (sortRowsDesc l).Pairwise fun a b => a.job_id ≠ b.job_id :=
    (List.Perm.pairwise_iff (fun h => Ne.symm h) (sortRowsDesc_perm l)).mpr hids
  refine ((sortRowsDesc_sorted l).and hids').imp ?_
  intro a b hab
  rcases hab.1 with h | h
  · exact h
  · exact absurd (rowKey_eq_job_id h).symm hab.2

/-- Filtering commutes with the descending sort (keys are distinct, so the
sorted order is unique). -/
theorem sortRowsDesc_filter (p : JobRow → Bool) {l : List JobRow}
    (hids : l.Pairwise fun a b => a.job_id ≠ b.job_id) :
    sortRowsDesc (l.filter p) = (sortRowsDesc l).filter p := by
  have hperm : List.Perm (sortRowsDesc (l.filter p)) ((sortRowsDesc l).filter p) :=
    (sortRowsDesc_perm (l.filter p)).trans (List.Perm.filter p (sortRowsDesc_perm l).symm)
  have hs1 : (sortRowsDesc (l.filter p)).Pairwise rowDescGt :=
    sortRowsDesc_strict (List.Pairwise.sublist (List.filter_sublist l) hids)
  have hs2 : ((sortRowsDesc l).filter p).Pairwise rowDescGt :=
    List.Pairwise.sublist (List.filter_sublist _) (sortRowsDesc_strict hids)
  exact List.eq_of_perm_of_sorted hperm hs1 hs2

/-- In a strictly descending list, the rows strictly after position i in the
keyset order are exactly the rows past position i. -/
theorem filter_keyLt_of_pairwise :
    ∀ S : List JobRow, S.Pairwise rowDescGt →
      ∀ (i : Nat) (hi : i < S.length),
        (S.filter fun r => decide (keyLt (rowKey r) (rowKey (S.get ⟨i, hi⟩)))) = S.drop (i + 1)
  | [], _, i, hi => absurd hi (Nat.not_lt_zero i)
  | x :: S, hp, 0, h0 => by
    have hnx : ¬(decide (keyLt (rowKey x) (rowKey ((x :: S).get ⟨0, h0⟩)))) = true := by
      simp only [List.get_cons_zero, decide_eq_true_eq]
      exact keyLt_irrefl _
    rw [List.filter_cons, if_neg hnx, List.drop_succ_cons, List.drop_zero]
    apply List.filter_eq_self.mpr
    intro r hr
    simp only [List.get_cons_zero, decide_eq_true_eq]
    exact (List.pairwise_cons.mp hp).1 r hr
  | x :: S, hp, i + 1, hi => by
    have hilt : i < S.length := by simpa using hi
    have hmem : S.get ⟨i, hilt⟩ ∈ S := List.get_mem S i hilt
    have hgt : keyLt (rowKey (S.get ⟨i, hilt⟩)) (rowKey x) :=
      (List.pairwise_cons.mp hp).1 _ hmem
    have hnx : ¬(decide (keyLt (rowKey x) (rowKey ((x :: S).get ⟨i + 1, hi⟩)))) = true := by
      simp only [List.get_cons_succ, decide_eq_true_eq]
      exact keyLt_asymm hgt
    rw [List.filter_cons, if_neg hnx, List.drop_succ_cons]
    have hrec := filter_keyLt_of_pairwise S (List.pairwise_cons.mp hp).2 i hilt
    simpa using hrec

theorem format_timestamp_id (s : String) : format_timestamp s = s := by
  unfold format_timestamp
  split <;> rfl

theorem getD_eq_get (l : List JobRow) (i : Nat) (h : i < l.length) :
    l.getD i default = l.get ⟨i, h⟩ := by
  simp [List.getD_eq_getElem?_getD, List.getElem?_eq_getElem h]

/-- The row sequence a `list_jobs` call selects before the LIMIT: the
keyset-filtered descending sort, or none when the supplied cursor does not
decode. -/
def cursorSelects (db : List JobRow) (fstatus fq : Option String) :
    Option String → Option (List JobRow)
  | none =>
    some (sortRowsDesc (db.filter fun r => rowMatches fstatus fq r && cursorCond none r))
  | some c =>
    match decode_cursor c with
    | none => none
    | some k =>
      some (sortRowsDesc (db.filter fun r => rowMatches fstatus fq r && cursorCond (some k) r))

theorem list_jobs_eq_pageOf (db : List JobRow) (fstatus fq : Option String) (limit : Nat)
    (co : Option String) (T : List JobRow)
    (hsel : cursorSelects db fstatus fq co = some T) :
    list_jobs db fstatus fq limit co = pageOf limit (T.take (limit + 1)) := by
  cases co with
  | none =>
    simp only [cursorSelects, Option.some.injEq] at hsel
    subst hsel
    rfl
  | some c =>
    simp only [cursorSelects] at hsel
    cases hdec : decode_cursor c with
    | none =>
      rw [hdec] at hsel
      exact absurd hsel (by simp)
    | some k =>
      rw [hdec] at hsel
      simp only [Option.some.injEq] at hsel
      subst hsel
      simp only [list_jobs, hdec]
      rfl

theorem paginateAux_drop (db : List JobRow) (fstatus fq : Option String) (limit : Nat)
    (S : List JobRow) (hS : S = sortRowsDesc (db.filter fun r => rowMatches fstatus fq r))
    (hlim : 1 ≤ limit)
    (hids : db.Pairwise fun a b => a.job_id ≠ b.job_id)
    (hbar : ∀ r ∈ db, '|' ∉ r.created_at.data) :
    ∀ (fuel m : Nat) (co : Option String), S.length ≤ m + fuel →
      cursorSelects db fstatus fq co = some (S.drop m) →
      paginateAux db fstatus fq limit fuel co = S.drop m := by
  have hfids : (db.filter fun r => rowMatches fstatus fq r).Pairwise
      fun a b => a.job_id ≠ b.job_id :=
    List.Pairwise.sublist (List.filter_sublist db) hids
  have hSstrict : S.Pairwise rowDescGt := by
    rw [hS]
    exact sortRowsDesc_strict hfids
  have hSmem : ∀ r ∈ S, r ∈ db := by
    intro r hr
    rw [hS] at hr
    exact List.mem_of_mem_filter ((sortRowsDesc_perm _).mem_iff.mp hr)
  intro fuel
  induction fuel with
  | zero =>
    intro m co hlen _
    rw [List.drop_eq_nil_of_le (by omega)]
    rfl
  | succ fuel ih =>
    intro m co hlen hsel
    rw [paginateAux, list_jobs_eq_pageOf db fstatus fq limit co _ hsel]
    by_cases hcase : (S.drop m).length ≤ limit
    · rw [List.take_of_length_le (by omega)]
      unfold pageOf
      rw [if_neg (by omega)]
    · push_neg at hcase
      have hdroplen : (S.drop m).length = S.length - m := List.length_drop m S
      have hidxS : m + (limit - 1) < S.length := by omega
      have hrowslen : ((S.drop m).take (limit + 1)).length = limit + 1 := by
        rw [List.length_take]
        omega
      have hidx1 : limit - 1 < ((S.drop m).take (limit + 1)).length := by omega
      have hgetD : ((S.drop m).take (limit + 1)).getD (limit - 1) default =
          S.get ⟨m + (limit - 1), hidxS⟩ := by
        rw [getD_eq_get _ _ hidx1]
        simp [List.get_eq_getElem, List.getElem_take, List.getElem_drop]
      have hmemR : S.get ⟨m + (limit - 1), hidxS⟩ ∈ db :=
        hSmem _ (List.get_mem S _ _)
      have hdec : decode_cursor (encode_cursor (S.get ⟨m + (limit - 1), hidxS⟩).created_at
          (S.get ⟨m + (limit - 1), hidxS⟩).job_id) =
          some ((S.get ⟨m + (limit - 1), hidxS⟩).created_at,
            (S.get ⟨m + (limit - 1), hidxS⟩).job_id) :=
        (decode_encode_cursor_both _ _ (hbar _ hmemR)).1
      have hnext : cursorSelects db fstatus fq
          (some (encode_cursor (S.get ⟨m + (limit - 1), hidxS⟩).created_at
            (S.get ⟨m + (limit - 1), hidxS⟩).job_id)) = some (S.drop (m + limit)) := by
        simp only [cursorSelects, hdec]
        congr 1
        have h1 : (db.filter fun r => rowMatches fstatus fq r &&
            cursorCond (some ((S.get ⟨m + (limit - 1), hidxS⟩).created_at,
              (S.get ⟨m + (limit - 1), hidxS⟩).job_id)) r) =
            ((db.filter fun r => rowMatches fstatus fq r).filter
              fun r => decide (keyLt (rowKey r) (rowKey (S.get ⟨m + (limit - 1), hidxS⟩)))) := by
          rw [List.filter_filter]
          apply List.filter_congr
          intro a _
          exact Bool.and_comm _ _
        rw [h1, sortRowsDesc_filter _ hfids, ← hS,
          filter_keyLt_of_pairwise S hSstrict (m + (limit - 1)) hidxS]
        congr 1
        omega
      have hih := ih (m + limit)
        (some (encode_cursor (S.get ⟨m + (limit - 1), hidxS⟩).created_at
          (S.get ⟨m + (limit - 1), hidxS⟩).job_id))
        (by omega) hnext
      unfold pageOf
      rw [if_pos (by omega)]
      simp only []
      rw [hgetD, format_timestamp_id, hih, List.take_take]
      have hmin : min limit (limit + 1) = limit := by omega
      rw [hmin, ← List.drop_drop, List.take_append_drop]

/-- C7: following the cursor with identical filters enumerates the whole
filtered, descending-sorted listing: the concatenation of all pages is
exactly the sorted sequence of matching rows — every matching row exactly
once, in order, with no duplicates and no gaps. -/
theorem c7_pagination_complete (db : List JobRow) (fstatus fq : Option String) (limit : Nat)
    (hlim : 1 ≤ limit)
    (hids : db.Pairwise fun a b => a.job_id ≠ b.job_id)
    (hbar : ∀ r ∈ db, '|' ∉ r.created_at.data) :
    paginate db fstatus fq limit =
      sortRowsDesc (db.filter fun r => rowMatches fstatus fq r) := by
  have hinit : cursorSelects db fstatus fq none =
      some ((sortRowsDesc (db.filter fun r => rowMatches fstatus fq r)).drop 0) := by
    simp only [cursorSelects, List.drop_zero, Option.some.injEq]
    congr 1
    apply List.filter_congr
    intro a _
    simp [cursorCond]
  have hlen : (sortRowsDesc (db.filter fun r => rowMatches fstatus fq r)).length ≤
      0 + (db.length + 1) := by
    have h1 := (sortRowsDesc_perm (db.filter fun r => rowMatches fstatus fq r)).length_eq
    have h2 := List.length_filter_le (fun r => rowMatches fstatus fq r) db
    omega
  have := paginateAux_drop db fstatus fq limit _ rfl hlim hids hbar
    (db.length + 1) 0 none hlen hinit
  simpa [paginate] using this

def sampleRowA : JobRow := ⟨"job_a", "queued", "c1", "2024-01-01T00:00:00Z", none, none⟩

def sampleRowB : JobRow := ⟨"job_b", "queued", "c2", "2024-01-02T00:00:00Z", none, none⟩

def sampleDb : List JobRow := [sampleRowA, sampleRowB]

/-- Witness for C7: two rows, page size 1, pagination enumerates both rows
newest-first. -/
theorem c7_pagination_complete_witness :
    1 ≤ 1 ∧ (sampleDb.Pairwise fun a b => a.job_id ≠ b.job_id) ∧
    (∀ r ∈ sampleDb, '|' ∉ r.created_at.data) ∧
    paginate sampleDb none none 1 =
      sortRowsDesc (sampleDb.filter fun r => rowMatches none none r) :=
  ⟨Nat.le_refl 1, by decide, by decide,
    c7_pagination_complete sampleDb none none 1 (Nat.le_refl 1) (by decide) (by decide)⟩

/-- C2 counterexample: with two matching rows and limit 1, the extra
(limit+1-th) fetched row is sampleRowA, but next_cursor encodes the
(created_at, job_id) key of sampleRowB, the row the page returned; the two
encodings differ, so the claim's description of the cursor is false here. -/
theorem c2_cursor_counterexample :
    list_jobs sampleDb none none 1 none =
      ListJobsResult.page [sampleRowB]
        (some (encode_cursor "2024-01-02T00:00:00Z" "job_b")) ∧
    decode_cursor (encode_cursor "2024-01-02T00:00:00Z" "job_b") =
      some ("2024-01-02T00:00:00Z", "job_b") ∧
    encode_cursor "2024-01-02T00:00:00Z" "job_b" ≠
      encode_cursor "2024-01-01T00:00:00Z" "job_a" := by
  refine ⟨by decide, by decide, by decide⟩

/-- C2 (amended): when more than limit rows match, the response holds
exactly the first limit rows of the descending listing and next_cursor
encodes the (created_at, job_id) key of the limit-th fetched row — the last
row of the returned page, not the extra limit+1-th row; when at most limit
rows match, next_cursor is null and every matching row is returned. -/
theorem c2_page_and_cursor (db : List JobRow) (fstatus fq : Option String) (limit : Nat)
    (hlim : 1 ≤ limit) :
    let S := sortRowsDesc (db.filter fun r => rowMatches fstatus fq r)
    (limit < S.length →
      list_jobs db fstatus fq limit none =
        ListJobsResult.page (S.take limit)
          (some (encode_cursor (format_timestamp (S.getD (limit - 1) default).created_at)
            (S.getD (limit - 1) default).job_id)) ∧
      (S.take limit).length = limit) ∧
    (S.length ≤ limit →
      list_jobs db fstatus fq limit none = ListJobsResult.page S none) := by
  intro S
  have hsel : cursorSelects db fstatus fq none = some S := by
    simp only [cursorSelects, Option.some.injEq]
    congr 1
    apply List.filter_congr
    intro a _
    simp [cursorCond]
  have hlj := list_jobs_eq_pageOf db fstatus fq limit none S hsel
  constructor
  · intro hlong
    have htakelen : (S.take (limit + 1)).length = limit + 1 := by
      rw [List.length_take]
      omega
    have hidx1 : limit - 1 < (S.take (limit + 1)).length := by omega
    have hidxS : limit - 1 < S.length := by omega
    have hgetD : (S.take (limit + 1)).getD (limit - 1) default =
        S.getD (limit - 1) default := by
      rw [getD_eq_get _ _ hidx1, getD_eq_get _ _ hidxS]
      simp [List.get_eq_getElem, List.getElem_take]
    refine ⟨?_, by rw [List.length_take]; omega⟩
    rw [hlj]
    unfold pageOf
    rw [if_pos (by omega), hgetD, List.take_take]
    have hmin : min limit (limit + 1) = limit := by omega
    rw [hmin]
  · intro hshort
    rw [hlj, List.take_of_length_le (by omega)]
    unfold pageOf
    rw [if_neg (by omega)]

/-- Witness for C2 at the two sample rows with limit 1. -/
theorem c2_page_and_cursor_witness :
    1 ≤ 1 ∧
    (let S := sortRowsDesc (sampleDb.filter fun r => rowMatches none none r)
     (1 < S.length →
        list_jobs sampleDb none none 1 none =
          ListJobsResult.page (S.take 1)
            (some (encode_cursor (format_timestamp (S.getD (1 - 1) default).created_at)
              (S.getD (1 - 1) default).job_id)) ∧
        (S.take 1).length = 1) ∧
     (S.length ≤ 1 →
        list_jobs sampleDb none none 1 none = ListJobsResult.page S none)) :=
  ⟨Nat.le_refl 1, c2_page_and_cursor sampleDb none none 1 (Nat.le_refl 1)⟩

/-! ### Worker execution (src/app/runner.py)

The shell invocation in `_run_command` is the worker's external effect; its
result is modelled as an `ExecOutcome`: the process either returns with an
exit code and captured streams, or the wall-clock timeout expires with the
partial captures and the elapsed milliseconds.  Timestamps produced by
`_now_utc` are passed in as parameters. -/

inductive ExecOutcome where
  | completed (returncode : Int) (stdout stderr : String)
  | timedOut (stdout stderr : String) (durationMs : Nat)
deriving DecidableEq

/-- Embeds `_run_command` (src/app/runner.py): on normal return the tuple is
(returncode, stdout, stderr, False); on subprocess.TimeoutExpired the exit
code is 124, timed_out is True, and "\n[timeout after <ms>ms]" is appended
to the captured stderr. -/
def run_command (outcome : ExecOutcome) : Int × String × String × Bool :=
  match outcome with
  | ExecOutcome.completed rc out err => (rc, out, err, false)
  | ExecOutcome.timedOut out err ms =>
    (124, out, err ++ "\n[timeout after " ++ Nat.repr ms ++ "ms]", true)

/-- The line boundaries Python's str.splitlines recognises. -/
def isLineBoundary (c : Char) : Bool :=
  c = '\n' || c = '\r' || c = '\x0b' || c = '\x0c' || c = '\x1c' || c = '\x1d' ||
    c = '\x1e' || c = '\x85' || c = '\u2028' || c = '\u2029'

/-- Python str.splitlines: boundary characters end a line and are dropped;
"\r\n" counts as a single boundary (the flag records that the previous
character was a '\r' that already ended a line, so a following '\n' is
swallowed); no trailing empty line is produced. -/
def pySplitlinesAux : List Char → List Char → Bool → List (List Char)
  | [], acc, _ => if acc.isEmpty then [] else [acc.reverse]
  | c :: rest, acc, lastCR =>
    if c = '\n' && lastCR then pySplitlinesAux rest acc false
    else if isLineBoundary c then acc.reverse :: pySplitlinesAux rest [] (c = '\r')
    else pySplitlinesAux rest (c :: acc) false

def pySplitlines (s : String) : List String :=
  (pySplitlinesAux s.data [] false).map String.mk

/-- One NDJSON record written by `_write_ndjson` via `_log_worker_output`. -/
structure LogRecord where
  ts : String
  job_id : String
  attempt_id : Option String
  stream : String
  line : String
deriving DecidableEq

/-- Embeds `_log_worker_output`: nothing for empty content, else one record
per splitlines line, tagged with the stream.  The source stamps each record
with its own _now_utc(); the single ts parameter stands for those stamps,
which no claim under study depends on. -/
def log_worker_output (ts job_id : String) (attempt_id : Option String)
    (stream content : String) : List LogRecord :=
  if content.isEmpty then []
  else (pySplitlines content).map fun line => ⟨ts, job_id, attempt_id, stream, line⟩

structure Attempt where
  attempt_id : String
  status : String
  started_at : Option String
  finished_at : Option String
  exit_code : Option Int
  error_summary : Option String
deriving DecidableEq

structure RunnerState where
  requested : Option String
  selected : Option String
  selection_reason : Option String
deriving DecidableEq

/-- The fields of the Job Document (job.json) the worker reads or writes in
its main loop.  The static fields (job_version, parsed_intent, policy,
links) and the artifact manifest, whose content comes from hashing files on
disk, are not modelled. -/
structure JobDoc where
  job_id : String
  command : String
  status : String
  created_at : String
  completed_at : Option String
  runner : RunnerState
  attempts : List Attempt
deriving DecidableEq

/-- Python truthiness of an optional string: None and "" are falsy. -/
def truthy (o : Option String) : Bool :=
  match o with
  | none => false
  | some s => !s.isEmpty

/-- The update loop `for attempt in attempts: if attempt_id matches: mutate;
break`: rewrite the first matching attempt only. -/
def markAttempt (aid : String) (f : Attempt → Attempt) : List Attempt → List Attempt
  | [] => []
  | a :: rest => if a.attempt_id == aid then f a :: rest else a :: markAttempt aid f rest

structure WorkerStepResult where
  storeStatus : String
  doc : JobDoc
  attemptLog : List LogRecord
deriving DecidableEq

/-- Embeds one iteration of the worker loop after a successful claim, on the
path where the command execution returns (runner.py `main`, the claim
handling through the terminal rewrite of job.json, without the outer
exception handler): load the document or synthesize a skeleton, fill in
runner defaults, append a running attempt, run the command, log each
captured line per stream, compute the terminal status — succeeded iff exit
code 0 and no timeout — update the Store row, update the attempt and
rewrite the document. -/
def worker_process_job (job_id command attempt_id started_at finished_at ts now : String)
    (prior : Option JobDoc) (outcome : ExecOutcome) : WorkerStepResult :=
  let st0 : JobDoc :=
    match prior with
    | some st => st
    | none => ⟨job_id, command, "queued", now, none, ⟨none, none, none⟩, []⟩
  let selected1 : Option String :=
    if truthy st0.runner.selected then st0.runner.selected else some "shell"
  let reason1 : Option String :=
    if truthy st0.runner.selection_reason then st0.runner.selection_reason
    else if truthy st0.runner.requested then some "requested by user"
    else some "default shell runner"
  let st1 : JobDoc :=
    { st0 with
        runner := ⟨st0.runner.requested, selected1, reason1⟩
        status := "running"
        attempts := st0.attempts ++ [⟨attempt_id, "running", some started_at, none, none, none⟩] }
  let r := run_command outcome
  let status := if r.1 = 0 && !r.2.2.2 then "succeeded" else "failed"
  let log :=
    log_worker_output ts job_id (some attempt_id) "stdout" r.2.1 ++
      log_worker_output ts job_id (some attempt_id) "stderr" r.2.2.1
  let attempts2 :=
    markAttempt attempt_id
      (fun a =>
        { a with
            status := status
            finished_at := some finished_at
            exit_code := some r.1
            error_summary := if status == "succeeded" then none else some "command failed" })
      st1.attempts
  let st2 : JobDoc :=
    { st1 with status := status, completed_at := some finished_at, attempts := attempts2 }
  ⟨status, st2, log⟩

theorem markAttempt_append_fresh (aid : String) (f : Attempt → Attempt) :
    ∀ l : List Attempt, (∀ a ∈ l, a.attempt_id ≠ aid) →
      ∀ new : Attempt, new.attempt_id = aid →
        markAttempt aid f (l ++ [new]) = l ++ [f new]
  | [], _, new, hnew => by
    rw [List.nil_append, markAttempt, if_pos (by simp [hnew]), List.nil_append]
  | a :: l, h, new, hnew => by
    rw [List.cons_append, markAttempt,
      if_neg (by simp [h a (List.mem_cons_self a l)]),
      markAttempt_append_fresh aid f l (fun x hx => h x (List.mem_cons_of_mem a hx)) new hnew,
      List.cons_append]

theorem pySplitlinesAux_no_boundary :
    ∀ (l acc : List Char) (flag : Bool), (∀ c ∈ l, isLineBoundary c = false) →
      pySplitlinesAux l acc flag =
        if (acc.reverse ++ l).isEmpty then [] else [acc.reverse ++ l]
  | [], acc, _, _ => by
    cases acc <;> simp [pySplitlinesAux]
  | c :: rest, acc, flag, h => by
    have hc : isLineBoundary c = false := h c (List.mem_cons_self c rest)
    have hcn : c ≠ '\n' := by
      intro he
      rw [he] at hc
      exact absurd hc (by decide)
    rw [pySplitlinesAux, if_neg (by simp [hcn]), if_neg (by simp [hc]),
      pySplitlinesAux_no_boundary rest (c :: acc) false
        (fun x hx => h x (List.mem_cons_of_mem c hx))]
    simp [List.append_assoc]

theorem mem_pySplitlinesAux_after_newline :
    ∀ (pre acc : List Char) (flag : Bool) (suf : List Char),
      (flag = true → acc = []) → suf ≠ [] → (∀ c ∈ suf, isLineBoundary c = false) →
      suf ∈ pySplitlinesAux (pre ++ '\n' :: suf) acc flag
  | [], acc, flag, suf, hinv, hne, hnb => by
    rw [List.nil_append, pySplitlinesAux]
    by_cases hflag : flag = true
    · rw [if_pos (by simp [hflag]), hinv hflag,
        pySplitlinesAux_no_boundary suf [] false hnb]
      rw [List.reverse_nil, List.nil_append, if_neg (by simp [hne])]
      exact List.mem_singleton.mpr rfl
    · have hf : flag = false := by simpa using hflag
      rw [if_neg (by simp [hf]), if_pos (by decide),
        pySplitlinesAux_no_boundary suf [] _ hnb]
      rw [List.reverse_nil, List.nil_append, if_neg (by simp [hne])]
      exact List.mem_cons_of_mem _ (List.mem_singleton.mpr rfl)
  | c :: pre, acc, flag, suf, hinv, hne, hnb => by
    rw [List.cons_append, pySplitlinesAux]
    by_cases h1 : (decide (c = '\n') && flag) = true
    · rw [if_pos h1]
      exact mem_pySplitlinesAux_after_newline pre acc false suf (by simp) hne hnb
    · rw [if_neg h1]
      by_cases h2 : isLineBoundary c = true
      · rw [if_pos h2]
        exact List.mem_cons_of_mem _
          (mem_pySplitlinesAux_after_newline pre [] _ suf (fun _ => rfl) hne hnb)
      · rw [if_neg h2]
        exact mem_pySplitlinesAux_after_newline pre (c :: acc) false suf (by simp) hne hnb

theorem digitChar_not_boundary (n : Nat) : isLineBoundary (Nat.digitChar n) = false := by
  by_cases h : n < 16
  · have hall : ∀ m, m < 16 → isLineBoundary (Nat.digitChar m) = false := by decide
    exact hall n h
  · have hstar : Nat.digitChar n = '*' := by
      unfold Nat.digitChar
      repeat rw [if_neg (by omega)]
    rw [hstar]
    decide

theorem toDigitsCore_not_boundary :
    ∀ (fuel n : Nat) (ds : List Char), (∀ c ∈ ds, isLineBoundary c = false) →
      ∀ c ∈ Nat.toDigitsCore 10 fuel n ds, isLineBoundary c = false
  | 0, n, ds, hds => by
    intro c hc
    rw [Nat.toDigitsCore] at hc
    exact hds c hc
  | fuel + 1, n, ds, hds => by
    intro c hc
    have heq : Nat.toDigitsCore 10 (fuel + 1) n ds =
        if n / 10 = 0 then Nat.digitChar (n % 10) :: ds
        else Nat.toDigitsCore 10 fuel (n / 10) (Nat.digitChar (n % 10) :: ds) := rfl
    rw [heq] at hc
    by_cases h0 : n / 10 = 0
    · rw [if_pos h0] at hc
      rcases List.mem_cons.mp hc with h | h
      · rw [h]
        exact digitChar_not_boundary _
      · exact hds c h
    · rw [if_neg h0] at hc
      refine toDigitsCore_not_boundary fuel (n / 10) _ ?_ c hc
      intro x hx
      rcases List.mem_cons.mp hx with h | h
      · rw [h]
        exact digitChar_not_boundary _
      · exact hds x h

theorem repr_not_boundary (ms : Nat) : ∀ c ∈ (Nat.repr ms).data, isLineBoundary c = false := by
  intro c hc
  have hrepr : (Nat.repr ms).data = Nat.toDigitsCore 10 (ms + 1) ms [] := rfl
  rw [hrepr] at hc
  exact toDigitsCore_not_boundary (ms + 1) ms [] (by simp) c hc

theorem timeout_line_not_boundary (ms : Nat) :
    ∀ c ∈ ("[timeout after " ++ Nat.repr ms ++ "ms]").data, isLineBoundary c = false := by
  have h1 : ∀ x ∈ ("[timeout after " : String).data, isLineBoundary x = false := by decide
  have h2 : ∀ x ∈ ("ms]" : String).data, isLineBoundary x = false := by decide
  intro c hc
  simp only [String.data_append, List.mem_append] at hc
  rcases hc with (h | h) | h
  · exact h1 c h
  · exact repr_not_boundary ms c h
  · exact h2 c h

/-- The status the worker derives from a finished execution. -/
def statusOf (outcome : ExecOutcome) : String :=
  if (run_command outcome).1 = 0 && !(run_command outcome).2.2.2 then "succeeded" else "failed"

theorem worker_storeStatus_eq (job_id command attempt_id started_at finished_at ts now : String)
    (prior : Option JobDoc) (outcome : ExecOutcome) :
    (worker_process_job job_id command attempt_id started_at finished_at ts now prior
      outcome).storeStatus = statusOf outcome := rfl

theorem worker_doc_status_eq (job_id command attempt_id started_at finished_at ts now : String)
    (prior : Option JobDoc) (outcome : ExecOutcome) :
    (worker_process_job job_id command attempt_id started_at finished_at ts now prior
      outcome).doc.status = statusOf outcome := rfl

theorem worker_attempts_eq (job_id command attempt_id started_at finished_at ts now : String)
    (prior : Option JobDoc) (outcome : ExecOutcome)
    (hfresh : ∀ st, prior = some st → ∀ a ∈ st.attempts, a.attempt_id ≠ attempt_id) :
    (worker_process_job job_id command attempt_id started_at finished_at ts now prior
        outcome).doc.attempts =
      (match prior with | some st => st.attempts | none => []) ++
        [⟨attempt_id, statusOf outcome, some started_at, some finished_at,
          some (run_command outcome).1,
          if statusOf outcome == "succeeded" then none else some "command failed"⟩] := by
  cases prior with
  | none =>
    show markAttempt attempt_id _ ([] ++ [_]) = _
    rw [markAttempt_append_fresh attempt_id _ [] (by simp) _ rfl]
    rfl
  | some st =>
    show markAttempt attempt_id _ (st.attempts ++ [_]) = _
    rw [markAttempt_append_fresh attempt_id _ st.attempts (hfresh st rfl) _ rfl]
    rfl

/-- C4: for a claimed job whose execution returns without an unhandled
exception, the terminal status is succeeded iff the exit code is 0 and the
run did not time out, else failed; that same status is written to the Store
row, to the Job Document's status, and to the attempt record (which also
records the exit code). -/
theorem c4_terminal_status (job_id command attempt_id started_at finished_at ts now : String)
    (prior : Option JobDoc) (outcome : ExecOutcome)
    (hfresh : ∀ st, prior = some st → ∀ a ∈ st.attempts, a.attempt_id ≠ attempt_id) :
    (worker_process_job job_id command attempt_id started_at finished_at ts now prior
        outcome).storeStatus =
      (if (run_command outcome).1 = 0 && !(run_command outcome).2.2.2 then "succeeded"
        else "failed") ∧
    (worker_process_job job_id command attempt_id started_at finished_at ts now prior
        outcome).doc.status =
      (worker_process_job job_id command attempt_id started_at finished_at ts now prior
        outcome).storeStatus ∧
    ∃ a, (worker_process_job job_id command attempt_id started_at finished_at ts now prior
        outcome).doc.attempts.getLast? = some a ∧
      a.attempt_id = attempt_id ∧
      a.status = (worker_process_job job_id command attempt_id started_at finished_at ts now
        prior outcome).storeStatus ∧
      a.exit_code = some (run_command outcome).1 := by
  refine ⟨rfl, rfl, ?_⟩
  refine ⟨⟨attempt_id, statusOf outcome, some started_at, some finished_at,
    some (run_command outcome).1,
    if statusOf outcome == "succeeded" then none else some "command failed"⟩, ?_, rfl, rfl, rfl⟩
  rw [worker_attempts_eq job_id command attempt_id started_at finished_at ts now prior
    outcome hfresh]
  exact List.getLast?_concat _

/-- Witness for C4: no prior document, successful execution with exit code 0. -/
theorem c4_terminal_status_witness :
    (∀ st, (none : Option JobDoc) = some st →
      ∀ a ∈ st.attempts, a.attempt_id ≠ "att_1") ∧
    ((worker_process_job "job_1" "echo hi" "att_1" "t0" "t1" "ts" "now" none
        (ExecOutcome.completed 0 "hi\n" "")).storeStatus =
      (if (run_command (ExecOutcome.completed 0 "hi\n" "")).1 = 0 &&
          !(run_command (ExecOutcome.completed 0 "hi\n" "")).2.2.2 then "succeeded"
        else "failed") ∧
    (worker_process_job "job_1" "echo hi" "att_1" "t0" "t1" "ts" "now" none
        (ExecOutcome.completed 0 "hi\n" "")).doc.status =
      (worker_process_job "job_1" "echo hi" "att_1" "t0" "t1" "ts" "now" none
        (ExecOutcome.completed 0 "hi\n" "")).storeStatus ∧
    ∃ a, (worker_process_job "job_1" "echo hi" "att_1" "t0" "t1" "ts" "now" none
        (ExecOutcome.completed 0 "hi\n" "")).doc.attempts.getLast? = some a ∧
      a.attempt_id = "att_1" ∧
      a.status = (worker_process_job "job_1" "echo hi" "att_1" "t0" "t1" "ts" "now" none
        (ExecOutcome.completed 0 "hi\n" "")).storeStatus ∧
      a.exit_code = some (run_command (ExecOutcome.completed 0 "hi\n" "")).1) :=
  And.intro (fun _ h => nomatch h)
    (c4_terminal_status "job_1" "echo hi" "att_1" "t0" "t1" "ts" "now" none
      (ExecOutcome.completed 0 "hi\n" "") (fun _ h => nomatch h))

/-- C3: a timed-out execution is recorded with exit code 124; the synthetic
"[timeout after <ms>ms]" line is appended after a newline to the captured
stderr, the attempt fails with exit_code 124, and the stderr log contains
the synthetic line. -/
theorem c3_timeout_recorded (job_id command attempt_id started_at finished_at ts now : String)
    (prior : Option JobDoc) (out err : String) (ms : Nat)
    (hfresh : ∀ st, prior = some st → ∀ a ∈ st.attempts, a.attempt_id ≠ attempt_id) :
    run_command (ExecOutcome.timedOut out err ms) =
      (124, out, err ++ "\n[timeout after " ++ Nat.repr ms ++ "ms]", true) ∧
    (worker_process_job job_id command attempt_id started_at finished_at ts now prior
        (ExecOutcome.timedOut out err ms)).storeStatus = "failed" ∧
    (∃ a, (worker_process_job job_id command attempt_id started_at finished_at ts now prior
        (ExecOutcome.timedOut out err ms)).doc.attempts.getLast? = some a ∧
      a.attempt_id = attempt_id ∧ a.status = "failed" ∧ a.exit_code = some 124) ∧
    (⟨ts, job_id, some attempt_id, "stderr",
        "[timeout after " ++ Nat.repr ms ++ "ms]"⟩ : LogRecord) ∈
      (worker_process_job job_id command attempt_id started_at finished_at ts now prior
        (ExecOutcome.timedOut out err ms)).attemptLog := by
  have hlit : ("\n[timeout after " : String).data =
      '\n' :: ("[timeout after " : String).data := rfl
  have hdata : (err ++ "\n[timeout after " ++ Nat.repr ms ++ "ms]").data =
      err.data ++ '\n' :: (("[timeout after " : String).data ++ (Nat.repr ms).data ++
        ("ms]" : String).data) := by
    simp [String.data_append, hlit, List.append_assoc]
  refine ⟨rfl, rfl, ?_, ?_⟩
  · refine ⟨⟨attempt_id, "failed", some started_at, some finished_at, some 124,
      some "command failed"⟩, ?_, rfl, rfl, rfl⟩
    rw [worker_attempts_eq job_id command attempt_id started_at finished_at ts now prior
      _ hfresh]
    exact List.getLast?_concat _
  · show _ ∈ log_worker_output ts job_id (some attempt_id) "stdout" out ++
      log_worker_output ts job_id (some attempt_id) "stderr"
        (err ++ "\n[timeout after " ++ Nat.repr ms ++ "ms]")
    apply List.mem_append_right
    have hne2 : ¬((err ++ "\n[timeout after " ++ Nat.repr ms ++ "ms]").isEmpty = true) := by
      rw [String.isEmpty_iff]
      intro h0
      have hd := congrArg String.data h0
      rw [hdata] at hd
      simp at hd
    unfold log_worker_output
    rw [if_neg hne2]
    apply List.mem_map.mpr
    refine ⟨"[timeout after " ++ Nat.repr ms ++ "ms]", ?_, rfl⟩
    unfold pySplitlines
    apply List.mem_map.mpr
    refine ⟨("[timeout after " : String).data ++ (Nat.repr ms).data ++
      ("ms]" : String).data, ?_, ?_⟩
    · rw [hdata]
      apply mem_pySplitlinesAux_after_newline
      · simp
      · have hopen : ("[timeout after " : String).data =
            '[' :: ("timeout after " : String).data := rfl
        simp [hopen]
      · intro c hc
        apply timeout_line_not_boundary ms
        simpa [String.data_append, List.append_assoc] using hc
    · exact string_eq_of_data_eq (by simp [String.data_append, List.append_assoc])

/-- Witness for C3: timeout after 1000 ms, no prior document. -/
theorem c3_timeout_recorded_witness :
    (∀ st, (none : Option JobDoc) = some st →
      ∀ a ∈ st.attempts, a.attempt_id ≠ "att_1") ∧
    (run_command (ExecOutcome.timedOut "" "boom" 1000) =
      (124, "", "boom" ++ "\n[timeout after " ++ Nat.repr 1000 ++ "ms]", true) ∧
    (worker_process_job "job_1" "sleep 5" "att_1" "t0" "t1" "ts" "now" none
        (ExecOutcome.timedOut "" "boom" 1000)).storeStatus = "failed" ∧
    (∃ a, (worker_process_job "job_1" "sleep 5" "att_1" "t0" "t1" "ts" "now" none
        (ExecOutcome.timedOut "" "boom" 1000)).doc.attempts.getLast? = some a ∧
      a.attempt_id = "att_1" ∧ a.status = "failed" ∧ a.exit_code = some 124) ∧
    (⟨"ts", "job_1", some "att_1", "stderr",
        "[timeout after " ++ Nat.repr 1000 ++ "ms]"⟩ : LogRecord) ∈
      (worker_process_job "job_1" "sleep 5" "att_1" "t0" "t1" "ts" "now" none
        (ExecOutcome.timedOut "" "boom" 1000)).attemptLog) :=
  And.intro (fun _ h => nomatch h)
    (c3_timeout_recorded "job_1" "sleep 5" "att_1" "t0" "t1" "ts" "now" none "" "boom" 1000
      (fun _ h => nomatch h))

/-! ### Artifact download (src/app/main.py, `get_job_artifact`)

Filesystem paths are modelled as lists of segments from the root; pathlib's
resolve() is modelled as lexical normalisation — empty and "." segments are
dropped, ".." pops one segment (staying at the root when already there) —
which matches a symlink-free filesystem.  `Path.parents` membership is
being a proper prefix of the segment list. -/

def resolveSegsAux : List String → List String → List String
  | acc, [] => acc.reverse
  | acc, seg :: rest =>
    if seg = "" || seg = "." then resolveSegsAux acc rest
    else if seg = ".." then resolveSegsAux (acc.drop 1) rest
    else resolveSegsAux (seg :: acc) rest

def resolveSegs (segs : List String) : List String := resolveSegsAux [] segs

/-- Split a download name on '/' (the route parameter may contain encoded
slashes and dot-dot segments). -/
def splitSegsAux : List Char → List Char → List String
  | [], cur => [String.mk cur.reverse]
  | c :: rest, cur =>
    if c = '/' then String.mk cur.reverse :: splitSegsAux rest []
    else splitSegsAux rest (c :: cur)

def splitSegs (name : String) : List String := splitSegsAux name.data []

/-- pathlib join then resolve: an absolute name replaces the base path. -/
def artifactTarget (base : List String) (name : String) : List String :=
  if name.data.head? = some '/' then resolveSegs (splitSegs name)
  else resolveSegs (base ++ splitSegs name)

/-- base_resolved ∈ target.parents: a proper prefix of the target path. -/
def properPrefixB (p t : List String) : Bool :=
  List.isPrefixOf p t && decide (p.length < t.length)

/-- Embeds `get_job_artifact` (src/app/main.py) at the path-check
granularity: 404 when the job row is missing, when the resolved target is
neither the resolved artifacts root nor strictly below it, or when the
target is not a regular file; otherwise the file at the resolved target is
served.  `isFile` abstracts the filesystem's regular-file predicate and
`base` is the artifacts directory of the job. -/
def get_job_artifact (rowExists : Bool) (base : List String) (name : String)
    (isFile : List String → Bool) : Option (List String) :=
  if !rowExists then none
  else
    let target := artifactTarget base name
    let baseResolved := resolveSegs base
    if !properPrefixB baseResolved target && target ≠ baseResolved then none
    else if !isFile target then none
    else some target

/-- C5: the artifact endpoint serves file bytes exactly when the resolved
target equals the resolved artifacts root or lies strictly underneath it
and is a regular file — and what it serves is that resolved target; any
name (dot-dot segments included) whose resolution escapes the root yields
404, never file content. -/
theorem c5_artifact_traversal_guard (rowExists : Bool) (base : List String) (name : String)
    (isFile : List String → Bool) :
    (∀ t, get_job_artifact rowExists base name isFile = some t →
      rowExists = true ∧ t = artifactTarget base name ∧
      (t = resolveSegs base ∨ properPrefixB (resolveSegs base) t = true) ∧
      isFile t = true) ∧
    ((¬(artifactTarget base name = resolveSegs base ∨
        properPrefixB (resolveSegs base) (artifactTarget base name) = true)) →
      get_job_artifact rowExists base name isFile = none) := by
  constructor
  · intro t hserve
    simp only [get_job_artifact] at hserve
    split_ifs at hserve with h1 h2 h3
    obtain rfl := Option.some.inj hserve
    refine ⟨by simpa using h1, rfl, ?_, by simpa using h3⟩
    simp only [Bool.and_eq_true, Bool.not_eq_true', decide_eq_true_eq, not_and] at h2
    by_cases hpp : properPrefixB (resolveSegs base) (artifactTarget base name) = true
    · exact Or.inr hpp
    · refine Or.inl ?_
      have hne := h2 (by simpa using hpp)
      simpa using hne
  · intro hout
    simp only [get_job_artifact]
    split_ifs with h1 h2 h3
    · rfl
    · rfl
    · rfl
    · exfalso
      push_neg at hout
      obtain ⟨hne, hpf⟩ := hout
      apply h2
      simp only [Bool.and_eq_true, Bool.not_eq_true', decide_eq_true_eq]
      exact ⟨by simpa using hpf, hne⟩

/-! ### Log retrieval (src/app/main.py, `get_job_logs`)

The attempt NDJSON files are abstracted as a partial map from attempt id to
the parsed record list (`_read_ndjson` of logs/attempt_<id>.ndjson); none
means the file does not exist.  The stream=1 Server-Sent-Events variant
emits the same mapped sequence and is not modelled; the claim's cursor and
line shape concern the JSON response. -/

structure LogLineOut where
  ts : String
  level : String
  message : String
deriving DecidableEq

/-- Embeds `_log_lines_from_items`: level is "error" exactly for the stderr
stream, "info" otherwise; line becomes message. -/
def log_lines_from_items (items : List LogRecord) : List LogLineOut :=
  items.map fun item => ⟨item.ts, if item.stream == "stderr" then "error" else "info", item.line⟩

inductive LogsResult where
  | notFound
  | logsUnavailable
  | lines (lines : List LogLineOut) (cursor : String)
deriving DecidableEq

/-- Embeds `get_job_logs` (src/app/main.py), JSON path: 404 for an unknown
row or missing document; 409 logs_unavailable with no attempts; the last
attempt is used when attempt_id is omitted; 409 when that attempt's NDJSON
file does not exist; otherwise the mapped lines, tailed to the last `tail`
entries, with cursor "logcur_" + count. -/
def get_job_logs (rowExists : Bool) (doc : Option JobDoc)
    (files : String → Option (List LogRecord)) (attempt_id : Option String)
    (tail : Nat) : LogsResult :=
  if !rowExists then LogsResult.notFound
  else
    match doc with
    | none => LogsResult.notFound
    | some payload =>
      if payload.attempts.isEmpty then LogsResult.logsUnavailable
      else
        let aid :=
          match attempt_id with
          | some a => a
          | none => (payload.attempts.getLastD ⟨"", "", none, none, none, none⟩).attempt_id
        match files aid with
        | none => LogsResult.logsUnavailable
        | some items =>
          let mapped := log_lines_from_items items
          let mapped2 :=
            if tail ≠ 0 && mapped.length > tail then mapped.drop (mapped.length - tail)
            else mapped
          LogsResult.lines mapped2 ("logcur_" ++ Nat.repr mapped2.length)

def effAttempt (attempt_id : Option String) (p : JobDoc) : String :=
  match attempt_id with
  | some a => a
  | none => (p.attempts.getLastD ⟨"", "", none, none, none, none⟩).attempt_id

/-- C8: on an existing job, no attempts gives 409 logs_unavailable; the
attempt defaults to the last one when attempt_id is omitted; a missing
NDJSON file gives 409; else each record maps to (ts, "error" iff stream is
stderr else "info", line), at most the last `tail` entries are returned —
exactly min tail (number of records) of them, the final ones — and the
cursor is "logcur_" followed by the returned count. -/
theorem c8_logs_endpoint (payload : JobDoc) (files : String → Option (List LogRecord))
    (attempt_id : Option String) (tail : Nat) (items : List LogRecord)
    (htail : 1 ≤ tail) (hne : payload.attempts ≠ [])
    (hfile : files (effAttempt attempt_id payload) = some items) :
    get_job_logs true (some { payload with attempts := [] }) files attempt_id tail =
      LogsResult.logsUnavailable ∧
    get_job_logs true (some payload) (fun _ => none) attempt_id tail =
      LogsResult.logsUnavailable ∧
    get_job_logs true (some payload) files attempt_id tail =
      LogsResult.lines
        ((log_lines_from_items items).drop (items.length - min tail items.length))
        ("logcur_" ++ Nat.repr (min tail items.length)) ∧
    ((log_lines_from_items items).drop (items.length - min tail items.length)).length =
      min tail items.length ∧
    log_lines_from_items items = items.map fun item =>
      ⟨item.ts, if item.stream == "stderr" then "error" else "info", item.line⟩ := by
  have hlen : (log_lines_from_items items).length = items.length := List.length_map _ _
  have hdroplen : ((log_lines_from_items items).drop
      (items.length - min tail items.length)).length = min tail items.length := by
    rw [List.length_drop, hlen]
    omega
  have hred : ∀ (p : JobDoc) (fs : String → Option (List LogRecord)),
      get_job_logs true (some p) fs attempt_id tail =
        if p.attempts.isEmpty then LogsResult.logsUnavailable
        else
          match fs (effAttempt attempt_id p) with
          | none => LogsResult.logsUnavailable
          | some its =>
            LogsResult.lines
              (if tail ≠ 0 && (log_lines_from_items its).length > tail then
                (log_lines_from_items its).drop ((log_lines_from_items its).length - tail)
               else log_lines_from_items its)
              ("logcur_" ++ Nat.repr
                (if tail ≠ 0 && (log_lines_from_items its).length > tail then
                  (log_lines_from_items its).drop ((log_lines_from_items its).length - tail)
                 else log_lines_from_items its).length) := fun p fs => rfl
  refine ⟨?_, ?_, ?_, hdroplen, rfl⟩
  · rw [hred, if_pos (by simp)]
  · rw [hred, if_neg (by simp [hne])]
  · have hcond : (if tail ≠ 0 && (log_lines_from_items items).length > tail then
        (log_lines_from_items items).drop ((log_lines_from_items items).length - tail)
      else log_lines_from_items items) =
        (log_lines_from_items items).drop (items.length - min tail items.length) := by
      by_cases hc : items.length > tail
      · rw [if_pos (by rw [hlen]; simp; omega), hlen]
        congr 1
        omega
      · rw [if_neg (by rw [hlen]; simp; omega)]
        have h0 : items.length - min tail items.length = 0 := by omega
        rw [h0, List.drop_zero]
    rw [hred, if_neg (by simp [hne]), hfile]
    dsimp only
    rw [hcond, hdroplen]

/-- Witness for C8: one attempt, one stderr record, tail 1, attempt_id
omitted. -/
theorem c8_logs_endpoint_witness :
    1 ≤ 1 ∧
    ((fun a => if a == "att_1" then
        some [(⟨"t", "job_1", some "att_1", "stderr", "oops"⟩ : LogRecord)] else none)
      (effAttempt none ⟨"job_1", "c", "running", "t", none, ⟨none, none, none⟩,
        [⟨"att_1", "running", none, none, none, none⟩]⟩) =
      some [(⟨"t", "job_1", some "att_1", "stderr", "oops"⟩ : LogRecord)]) ∧
    (get_job_logs true
        (some { job_id := "job_1", command := "c", status := "running", created_at := "t",
                completed_at := none, runner := ⟨none, none, none⟩,
                attempts := ([] : List Attempt) })
        (fun a => if a == "att_1" then
          some [(⟨"t", "job_1", some "att_1", "stderr", "oops"⟩ : LogRecord)] else none)
        none 1 = LogsResult.logsUnavailable ∧
    get_job_logs true
        (some ⟨"job_1", "c", "running", "t", none, ⟨none, none, none⟩,
          [⟨"att_1", "running", none, none, none, none⟩]⟩)
        (fun _ => none) none 1 = LogsResult.logsUnavailable ∧
    get_job_logs true
        (some ⟨"job_1", "c", "running", "t", none, ⟨none, none, none⟩,
          [⟨"att_1", "running", none, none, none, none⟩]⟩)
        (fun a => if a == "att_1" then
          some [(⟨"t", "job_1", some "att_1", "stderr", "oops"⟩ : LogRecord)] else none)
        none 1 =
      LogsResult.lines
        ((log_lines_from_items [⟨"t", "job_1", some "att_1", "stderr", "oops"⟩]).drop
          (([(⟨"t", "job_1", some "att_1", "stderr", "oops"⟩ : LogRecord)]).length -
            min 1 ([(⟨"t", "job_1", some "att_1", "stderr", "oops"⟩ : LogRecord)]).length))
        ("logcur_" ++ Nat.repr
          (min 1 ([(⟨"t", "job_1", some "att_1", "stderr", "oops"⟩ : LogRecord)]).length)) ∧
    ((log_lines_from_items [⟨"t", "job_1", some "att_1", "stderr", "oops"⟩]).drop
        (([(⟨"t", "job_1", some "att_1", "stderr", "oops"⟩ : LogRecord)]).length -
          min 1 ([(⟨"t", "job_1", some "att_1", "stderr", "oops"⟩ : LogRecord)]).length)).length =
      min 1 ([(⟨"t", "job_1", some "att_1", "stderr", "oops"⟩ : LogRecord)]).length ∧
    log_lines_from_items [⟨"t", "job_1", some "att_1", "stderr", "oops"⟩] =
      ([(⟨"t", "job_1", some "att_1", "stderr", "oops"⟩ : LogRecord)]).map fun item =>
        ⟨item.ts, if item.stream == "stderr" then "error" else "info", item.line⟩) :=
  And.intro (Nat.le_refl 1) (And.intro (by decide)
    (c8_logs_endpoint
      ⟨"job_1", "c", "running", "t", none, ⟨none, none, none⟩,
        [⟨"att_1", "running", none, none, none, none⟩]⟩
      (fun a => if a == "att_1" then
        some [(⟨"t", "job_1", some "att_1", "stderr", "oops"⟩ : LogRecord)] else none)
      none 1 [⟨"t", "job_1", some "att_1", "stderr", "oops"⟩]
      (Nat.le_refl 1) (by simp) (by decide)))

/- ### C9: worker claim loop (runner.py _claim_job_sqlite / _claim_job_postgres)

Both engines pick the queued row that is first in (created_at ASC, job_id ASC)
order and atomically flip it to running, COALESCE-ing runner_selected to
"shell".  SQLite wraps the SELECT ... LIMIT 1 and the guarded UPDATE in a
BEGIN IMMEDIATE transaction; Postgres uses a single UPDATE over a
FOR UPDATE SKIP LOCKED subquery.  Either way a whole claim is one atomic
step, so a run of N concurrent workers is an interleaving of atomic claim
steps: we model it as a sequence of `claim_job` applications. -/

def rowAscLe (r1 r2 : JobRow) : Prop := keyLt (rowKey r1) (rowKey r2) ∨ rowKey r1 = rowKey r2

def rowAscLt (r1 r2 : JobRow) : Prop := keyLt (rowKey r1) (rowKey r2)

instance : DecidableRel rowAscLe := fun a b => by
  unfold rowAscLe
  exact inferInstance

instance : IsTotal JobRow rowAscLe :=
  ⟨fun a b => by
    unfold rowAscLe
    rcases keyLt_trichotomy (rowKey a) (rowKey b) with h | h | h
    · exact Or.inl (Or.inl h)
    · exact Or.inl (Or.inr h)
    · exact Or.inr (Or.inl h)⟩

instance : IsTrans JobRow rowAscLe :=
  ⟨fun a b c hab hbc => by
    unfold rowAscLe at *
    rcases hab with hab | hab <;> rcases hbc with hbc | hbc
    · exact Or.inl (keyLt_trans hab hbc)
    · exact Or.inl (hbc ▸ hab)
    · exact Or.inl (hab ▸ hbc)
    · exact Or.inr (hab.trans hbc)⟩

instance : IsAntisymm JobRow rowAscLt :=
  ⟨fun a b h1 h2 => absurd h1 (keyLt_asymm h2)⟩

def sortRowsAsc (rows : List JobRow) : List JobRow :=
  List.insertionSort rowAscLe rows

theorem sortRowsAsc_perm (l : List JobRow) : List.Perm (sortRowsAsc l) l :=
  List.perm_insertionSort _ _

theorem sortRowsAsc_sorted (l : List JobRow) : (sortRowsAsc l).Pairwise rowAscLe :=
  List.sorted_insertionSort _ _

theorem sortRowsAsc_strict {l : List JobRow}
    (hids : l.Pairwise fun a b => a.job_id ≠ b.job_id) :
    (sortRowsAsc l).Pairwise rowAscLt := by
  have hids' : (sortRowsAsc l).Pairwise fun a b => a.job_id ≠ b.job_id :=
    (List.Perm.pairwise_iff (fun h => Ne.symm h) (sortRowsAsc_perm l)).mpr hids
  refine ((sortRowsAsc_sorted l).and hids').imp ?_
  intro a b hab
  rcases hab.1 with h | h
  · exact h
  · exact absurd (rowKey_eq_job_id h) hab.2

theorem sortRowsAsc_filter (p : JobRow → Bool) {l : List JobRow}
    (hids : l.Pairwise fun a b => a.job_id ≠ b.job_id) :
    sortRowsAsc (l.filter p) = (sortRowsAsc l).filter p := by
  have hperm : List.Perm (sortRowsAsc (l.filter p)) ((sortRowsAsc l).filter p) :=
    (sortRowsAsc_perm (l.filter p)).trans (List.Perm.filter p (sortRowsAsc_perm l).symm)
  have hs1 : (sortRowsAsc (l.filter p)).Pairwise rowAscLt :=
    sortRowsAsc_strict (List.Pairwise.sublist (List.filter_sublist l) hids)
  have hs2 : ((sortRowsAsc l).filter p).Pairwise rowAscLt :=
    List.Pairwise.sublist (List.filter_sublist _) (sortRowsAsc_strict hids)
  exact List.eq_of_perm_of_sorted hperm hs1 hs2

def coalesceShell : Option String → Option String
  | none => some "shell"
  | some s => some s

def updFn (jid : String) (r : JobRow) : JobRow :=
  if r.job_id == jid && r.status == "queued" then
    { r with status := "running", runner_selected := coalesceShell r.runner_selected }
  else r

def claim_job (db : List JobRow) : Option (String × String) × List JobRow :=
  match (sortRowsAsc (db.filter fun r => r.status == "queued")).head? with
  | none => (none, db)
  | some row =>
    let updated := db.map (updFn row.job_id)
    if (db.filter fun r => r.job_id == row.job_id && r.status == "queued").isEmpty then
      (none, db)
    else (some (row.job_id, row.command), updated)

def claimTrace : Nat → List JobRow → List (String × String) × List JobRow
  | 0, db => ([], db)
  | k + 1, db =>
    match claim_job db with
    | (none, db2) => ([], db2)
    | (some c, db2) =>
      let rest := claimTrace k db2
      (c :: rest.1, rest.2)

theorem updFn_job_id (jid : String) (r : JobRow) : (updFn jid r).job_id = r.job_id := by
  unfold updFn
  split <;> rfl

theorem updFn_status (jid : String) (r : JobRow) :
    ((updFn jid r).status == "queued") = (r.status == "queued" && !(r.job_id == jid)) := by
  unfold updFn
  by_cases h1 : r.job_id == jid
  · by_cases h2 : r.status == "queued"
    · rw [if_pos (by rw [h1, h2]; rfl)]
      simp [h1]
    · rw [if_neg (by simp [h2])]
      simp [h1, h2]
  · rw [if_neg (by simp [h1])]
    simp [h1]

theorem updFn_id_of_ne (jid : String) (r : JobRow) (h : (r.job_id == jid) = false) :
    updFn jid r = r := by
  unfold updFn
  rw [if_neg (by simp [h])]

theorem filter_queued_map_upd (jid : String) :
    ∀ db : List JobRow,
      ((db.map (updFn jid)).filter fun r => r.status == "queued") =
        db.filter fun r => r.status == "queued" && !(r.job_id == jid)
  | [] => rfl
  | r :: db => by
    rw [List.map_cons, List.filter_cons, List.filter_cons]
    by_cases hk : (r.status == "queued" && !(r.job_id == jid)) = true
    · have hkeep : ((updFn jid r).status == "queued") = true := by
        rw [updFn_status]
        exact hk
      have hid : (r.job_id == jid) = false := by
        have h2 := (Bool.and_eq_true _ _).mp hk
        simpa using h2.2
      rw [if_pos hkeep, if_pos hk, updFn_id_of_ne jid r hid,
        filter_queued_map_upd jid db]
    · have hdrop : ¬((updFn jid r).status == "queued") = true := by
        rw [updFn_status]
        exact hk
      rw [if_neg hdrop, if_neg hk, filter_queued_map_upd jid db]

theorem claimTrace_spec : ∀ (k : Nat) (db : List JobRow),
    db.Pairwise (fun a b => a.job_id ≠ b.job_id) →
    (claimTrace k db).1 =
      ((sortRowsAsc (db.filter fun r => r.status == "queued")).take k).map
        fun r => (r.job_id, r.command)
  | 0, db, _ => by simp [claimTrace]
  | k + 1, db, hids => by
    have hQids : (db.filter fun r => r.status == "queued").Pairwise
        (fun a b => a.job_id ≠ b.job_id) :=
      List.Pairwise.sublist (List.filter_sublist db) hids
    cases hS : sortRowsAsc (db.filter fun r => r.status == "queued") with
    | nil =>
      have hcj : claim_job db = (none, db) := by
        unfold claim_job
        rw [hS]
        rfl
      show (claimTrace (k + 1) db).1 = _
      unfold claimTrace
      rw [hcj]
      rfl
    | cons row S2 =>
      have hrowQ : row ∈ db.filter fun r => r.status == "queued" :=
        (sortRowsAsc_perm _).subset (by rw [hS]; exact List.mem_cons_self _ _)
      have hrowdb := List.mem_filter.mp hrowQ
      have hmemf : row ∈ db.filter fun r => r.job_id == row.job_id && r.status == "queued" :=
        List.mem_filter.mpr ⟨hrowdb.1, by rw [hrowdb.2]; simp⟩
      have hnemp : ¬(db.filter fun r =>
          r.job_id == row.job_id && r.status == "queued").isEmpty = true :=
        fun h => List.ne_nil_of_mem hmemf (List.isEmpty_iff.mp h)
      have hcj : claim_job db =
          (some (row.job_id, row.command), db.map (updFn row.job_id)) := by
        unfold claim_job
        rw [hS]
        dsimp only [List.head?]
        rw [if_neg hnemp]
      have hids2 : (db.map (updFn row.job_id)).Pairwise
          (fun a b => a.job_id ≠ b.job_id) :=
        List.Pairwise.map _ (fun a b h => by rw [updFn_job_id, updFn_job_id]; exact h) hids
      have hSids : (sortRowsAsc (db.filter fun r => r.status == "queued")).Pairwise
          (fun a b => a.job_id ≠ b.job_id) :=
        (List.Perm.pairwise_iff (fun h => Ne.symm h) (sortRowsAsc_perm _)).mpr hQids
      rw [hS] at hSids
      have htail : S2.filter (fun r => !(r.job_id == row.job_id)) = S2 := by
        apply List.filter_eq_self.mpr
        intro r hr
        have hne := (List.pairwise_cons.mp hSids).1 r hr
        simp [Ne.symm hne]
      have hff : (db.filter fun r => r.status == "queued").filter
          (fun r => !(r.job_id == row.job_id)) =
          db.filter fun r => r.status == "queued" && !(r.job_id == row.job_id) := by
        rw [List.filter_filter]
        exact List.filter_congr fun r _ => Bool.and_comm _ _
      have hupd : sortRowsAsc ((db.map (updFn row.job_id)).filter
          fun r => r.status == "queued") = S2 := by
        rw [filter_queued_map_upd]
        rw [← hff]
        rw [sortRowsAsc_filter (fun r => !(r.job_id == row.job_id)) hQids]
        rw [hS]
        rw [List.filter_cons, if_neg (by simp), htail]
      have hrec := claimTrace_spec k (db.map (updFn row.job_id)) hids2
      rw [hupd] at hrec
      show (claimTrace (k + 1) db).1 = _
      unfold claimTrace
      rw [hcj]
      dsimp only
      rw [hrec, List.take_succ_cons, List.map_cons]

/-- C9: modelling each claim transaction (BEGIN IMMEDIATE on SQLite,
FOR UPDATE SKIP LOCKED on Postgres) as one atomic step, any interleaving of
worker claim steps is a sequence of `claim_job` applications; with distinct
job ids, k claim attempts return exactly the first k queued rows in
(created_at ASC, job_id ASC) order, so with M queued jobs exactly M claims
succeed, each job is claimed once, in ascending keyset order. -/
theorem c9_claims_in_order (db : List JobRow)
    (hids : db.Pairwise fun a b => a.job_id ≠ b.job_id) (k : Nat) :
    (claimTrace k db).1 =
      ((sortRowsAsc (db.filter fun r => r.status == "queued")).take k).map
        fun r => (r.job_id, r.command) :=
  claimTrace_spec k db hids

/-- Witness for C9: two queued rows, two claim steps take them oldest-first. -/
theorem c9_claims_in_order_witness :
    (sampleDb.Pairwise fun a b => a.job_id ≠ b.job_id) ∧
    (claimTrace 2 sampleDb).1 =
      ((sortRowsAsc (sampleDb.filter fun r => r.status == "queued")).take 2).map
        fun r => (r.job_id, r.command) :=
  And.intro (by decide) (c9_claims_in_order sampleDb (by decide) 2)

/- ### C10: create_job (main.py) — the allowlist check precedes all writes

In create_job the call to _check_policy_allowlist and its early return sit
before the INSERT INTO jobs and before _write_job_file, so a policy_denied
response is produced with no persistent effects.  We model the handler as a
pure function returning its response together with the ordered list of
persistence effects it executes. -/

inductive Effect where
  | insertRow (job_id status command created_at : String)
      (runner_requested runner_selected : Option String)
  | writeJobFile (job_id : String)
deriving DecidableEq

inductive CreateResult where
  | policyDenied
  | created (job_id : String)
deriving DecidableEq

def create_job (job_id created_at command : String)
    (runner_requested : Option String) (allowlist : Option (List String)) :
    CreateResult × List Effect :=
  if check_policy_allowlist command allowlist then
    (CreateResult.policyDenied, [])
  else
    (CreateResult.created job_id,
      [Effect.insertRow job_id "queued" command created_at runner_requested runner_requested,
       Effect.writeJobFile job_id])

/-- C10: a POST /api/jobs rejected with 403 policy_denied performs no
persistent effect: the jobs-table INSERT and the job.json write are both
skipped, because the allowlist check runs (and returns) before either. -/
theorem c10_policy_denied_no_effects (job_id created_at command : String)
    (runner_requested : Option String) (allowlist : Option (List String))
    (h : (create_job job_id created_at command runner_requested allowlist).1 =
      CreateResult.policyDenied) :
    (create_job job_id created_at command runner_requested allowlist).2 = [] ∧
    ((create_job job_id created_at command runner_requested allowlist).1 =
        CreateResult.policyDenied ↔ check_policy_allowlist command allowlist = true) := by
  unfold create_job at *
  by_cases hc : check_policy_allowlist command allowlist = true
  · rw [if_pos hc] at *
    exact ⟨rfl, by simp [hc]⟩
  · rw [if_neg hc] at h
    exact absurd h (by simp)

/-- Witness for C10: the denied request leaves the effect list empty. -/
theorem c10_policy_denied_no_effects_witness :
    ((create_job "job_1" "2024-01-01T00:00:00Z" "curl http://evil.test/x" none
        (some ["good.test"])).1 = CreateResult.policyDenied) ∧
    ((create_job "job_1" "2024-01-01T00:00:00Z" "curl http://evil.test/x" none
        (some ["good.test"])).2 = [] ∧
      ((create_job "job_1" "2024-01-01T00:00:00Z" "curl http://evil.test/x" none
          (some ["good.test"])).1 = CreateResult.policyDenied ↔
        check_policy_allowlist "curl http://evil.test/x" (some ["good.test"]) = true)) :=
  And.intro (by decide)
    (c10_policy_denied_no_effects "job_1" "2024-01-01T00:00:00Z"
      "curl http://evil.test/x" none (some ["good.test"]) (by decide))

end SandboxOrch
